import Mathlib

/-!
Verification development for the spatial vertex-mirroring engine of the
BASICs shape-key manager add-on.

The embedding translates `core/octree.py`, `operators/mirror_ops.py`,
`operators/mesh_mirror_ops.py` and `core/mirror_utils.py` into Lean.
Coordinates are rationals (the Python code computes with IEEE floats; we
model the intended exact arithmetic).  All distance values are carried in
SQUARED form: the Python code stores squared distances inside leaf scans
and takes a square root only when a distance crosses a function boundary,
and every comparison it performs is between two non-negative quantities,
so comparing squares is equivalent to comparing the square-rooted values
(`Real.sqrt` is strictly monotone on non-negatives).  `QI.inf` models the
Python `float('inf')`.
-/

namespace BasicsSKM

/-- A 3-D point with rational coordinates (models a `mathutils.Vector` /
coordinate triple). -/
structure Pt3 where
  x : ℚ
  y : ℚ
  z : ℚ
deriving DecidableEq, Repr

/-- A stored octree entry: a point together with its vertex-index label. -/
abbrev Entry := Pt3 × ℕ

/-- Extended non-negative value: a rational (here always a squared
distance) or `inf` (Python `float('inf')`). -/
inductive QI where
  | fin : ℚ → QI
  | inf : QI
deriving DecidableEq, Repr

/-- Strict order on `QI` (models `<` between Python floats, with both
sides squared). -/
def qiLt : QI → QI → Bool
  | .fin a, .fin b => decide (a < b)
  | .fin _, .inf => true
  | .inf, _ => false

/-- Non-strict order on `QI` (models `<=` between Python floats, with both
sides squared). -/
def qiLe : QI → QI → Bool
  | .fin a, .fin b => decide (a ≤ b)
  | _, .inf => true
  | .inf, .fin _ => false

/-- Squared Euclidean distance, the
`sum((query_point[j] - point[j])**2 for j in range(3))` of
`OctreeNode.find_nearest`. -/
def sqDist (q p : Pt3) : ℚ :=
  (q.x - p.x) * (q.x - p.x) + (q.y - p.y) * (q.y - p.y) + (q.z - p.z) * (q.z - p.z)

/-- `OctreeNode.get_octant_index`: bit 2 set iff `point.x >= center.x`,
bit 1 for y, bit 0 for z. -/
def octantIndex (center p : Pt3) : ℕ :=
  (if center.x ≤ p.x then 4 else 0) +
  (if center.y ≤ p.y then 2 else 0) +
  (if center.z ≤ p.z then 1 else 0)

/-- `OctreeNode`.  A leaf carries its point list; an interior node carries
its eight children in octant order (the source stores `max_points`,
`depth` and `max_depth` as fields that are constant along the tree —
here they are parameters of the operations, with `rem = max_depth -
depth` the remaining subdivision budget).  Interior nodes in the source
always have an empty `points` list (`subdivide` clears it), so the `node`
constructor carries no point list. -/
inductive OctreeNode where
  | leaf (center : Pt3) (size : ℚ) (points : List Entry)
  | node (center : Pt3) (size : ℚ)
      (c0 c1 c2 c3 c4 c5 c6 c7 : OctreeNode)
deriving DecidableEq, Repr

namespace OctreeNode

/-- The `center` field common to both constructors. -/
def center : OctreeNode → Pt3
  | .leaf c _ _ => c
  | .node c _ _ _ _ _ _ _ _ _ => c

/-- The `size` (half-width) field common to both constructors. -/
def halfWidth : OctreeNode → ℚ
  | .leaf _ s _ => s
  | .node _ s _ _ _ _ _ _ _ _ => s

/-- Child at octant index `i` (identity on leaves; only ever applied to
nodes with `i ≤ 7`). -/
def kid : OctreeNode → ℕ → OctreeNode
  | .node _ _ c0 c1 c2 c3 c4 c5 c6 c7, i =>
    match i with
    | 0 => c0
    | 1 => c1
    | 2 => c2
    | 3 => c3
    | 4 => c4
    | 5 => c5
    | 6 => c6
    | _ => c7
  | t, _ => t

/-- Replace the child at octant index `i` (identity on leaves). -/
def setKid : OctreeNode → ℕ → OctreeNode → OctreeNode
  | .node c s c0 c1 c2 c3 c4 c5 c6 c7, i, u =>
    match i with
    | 0 => .node c s u c1 c2 c3 c4 c5 c6 c7
    | 1 => .node c s c0 u c2 c3 c4 c5 c6 c7
    | 2 => .node c s c0 c1 u c3 c4 c5 c6 c7
    | 3 => .node c s c0 c1 c2 u c4 c5 c6 c7
    | 4 => .node c s c0 c1 c2 c3 u c5 c6 c7
    | 5 => .node c s c0 c1 c2 c3 c4 u c6 c7
    | 6 => .node c s c0 c1 c2 c3 c4 c5 u c7
    | _ => .node c s c0 c1 c2 c3 c4 c5 c6 u
  | t, _, _ => t

/-- The eight fresh children created by `OctreeNode.subdivide`: child `i`
is a leaf of half-width `size/2` centered at
`center + (±size/2, ±size/2, ±size/2)` with the sign pattern matching
octant `i` (the source builds them with nested loops over
`x_dir, y_dir, z_dir ∈ [-1, 1]`, which enumerates exactly this order). -/
def subdivided (c : Pt3) (s : ℚ) : OctreeNode :=
  let h := s / 2
  .node c s
    (.leaf ⟨c.x - h, c.y - h, c.z - h⟩ h [])
    (.leaf ⟨c.x - h, c.y - h, c.z + h⟩ h [])
    (.leaf ⟨c.x - h, c.y + h, c.z - h⟩ h [])
    (.leaf ⟨c.x - h, c.y + h, c.z + h⟩ h [])
    (.leaf ⟨c.x + h, c.y - h, c.z - h⟩ h [])
    (.leaf ⟨c.x + h, c.y - h, c.z + h⟩ h [])
    (.leaf ⟨c.x + h, c.y + h, c.z - h⟩ h [])
    (.leaf ⟨c.x + h, c.y + h, c.z + h⟩ h [])

/-- `OctreeNode.insert` (together with `subdivide` and
`_insert_point_in_children`).  `maxPoints` is the node capacity
(`max_points`), `rem = max_depth - depth` the remaining subdivision
budget: the source subdivides only when `depth < max_depth`, i.e. when
`rem > 0`, and descending one level decrements the budget.  A `node` at
`rem = 0` cannot arise from the source API (subdivision is gated on
`rem > 0`), so the `rem = 0` node case is left as the identity. -/
def insertAux (maxPoints : ℕ) : ℕ → OctreeNode → Entry → OctreeNode
  | rem, .leaf c s pts, e =>
    let pts2 := pts ++ [e]
    match rem with
    | 0 => .leaf c s pts2
    | r + 1 =>
      if maxPoints < pts2.length then
        pts2.foldl
          (fun t2 e2 =>
            t2.setKid (octantIndex c e2.1)
              (insertAux maxPoints r (t2.kid (octantIndex c e2.1)) e2))
          (subdivided c s)
      else
        .leaf c s pts2
  | rem, .node c s c0 c1 c2 c3 c4 c5 c6 c7, e =>
    match rem with
    | 0 => .node c s c0 c1 c2 c3 c4 c5 c6 c7
    | r + 1 =>
      let t := OctreeNode.node c s c0 c1 c2 c3 c4 c5 c6 c7
      t.setKid (octantIndex c e.1)
        (insertAux maxPoints r (t.kid (octantIndex c e.1)) e)
termination_by rem => rem

/-- Best-candidate accumulator state of a leaf scan: the squared best
distance so far and the best label. -/
abbrev Best := QI × Option ℕ

/-- The loop over `self.points` in the leaf branch of
`OctreeNode.find_nearest`: keep a point iff its squared distance is both
below the best so far and at most `max_dist**2`. -/
def leafScan (q : Pt3) (maxSq : QI) : List Entry → Best → Best
  | [], st => st
  | (p, ix) :: rest, (bd, bi) =>
    let d := sqDist q p
    if qiLt (.fin d) bd && qiLe (.fin d) maxSq then
      leafScan q maxSq rest (.fin d, some ix)
    else
      leafScan q maxSq rest (bd, bi)

/-- The per-axis lower bound of the interior branch of `find_nearest`:
sum of squared per-axis gaps where the query lies outside the child cube
(`diff = abs(query[j] - child.center[j]) - child.size`, added when
positive), kept in squared form. -/
def minDistSqToOctant (q c : Pt3) (s : ℚ) : ℚ :=
  (if 0 < |q.x - c.x| - s then (|q.x - c.x| - s) * (|q.x - c.x| - s) else 0) +
  (if 0 < |q.y - c.y| - s then (|q.y - c.y| - s) * (|q.y - c.y| - s) else 0) +
  (if 0 < |q.z - c.z| - s then (|q.z - c.z| - s) * (|q.z - c.z| - s) else 0)

/-- One sibling step of the interior loop of `find_nearest`, after the
child search returned `res`: `if dist < best_dist: best := dist; idx :=
res.idx; max_dist := best`.  State is `(best_dist, best_idx, max_dist)`. -/
def sibCombine (st : QI × Option ℕ × QI) (res : Best) : QI × Option ℕ × QI :=
  if qiLt res.1 st.1 then (res.1, res.2, res.1) else st

/-- The sibling guard of the interior loop: search child `i` only when
the lower bound to its cube is strictly below `max_dist` (source:
`min_dist_to_octant**0.5 < max_dist`, squared here). -/
def sibNeeded (q : Pt3) (ch : OctreeNode) (md : QI) : Bool :=
  qiLt (.fin (minDistSqToOctant q ch.center ch.halfWidth)) md

/-- One iteration of `for i, child in enumerate(self.children)`: skip the
already-searched octant `oct`, prune by `sibNeeded`, otherwise search the
child with the current `max_dist` (the `search` argument is the recursive
`find_nearest` call on this child) and merge with `sibCombine`. -/
def sibStep (q : Pt3) (oct i : ℕ) (ch : OctreeNode) (search : QI → Best)
    (st : QI × Option ℕ × QI) : QI × Option ℕ × QI :=
  if oct = i then st
  else if sibNeeded q ch st.2.2 then sibCombine st (search st.2.2) else st

/-- `OctreeNode.find_nearest` with the distance bound and the returned
distance both in squared form (`maxSq` is the square of the Python
`max_dist` argument; the first component of the result is the square of
the returned `best_dist**0.5`).  The sibling loop
`for i, child in enumerate(self.children): if i != octant: ...` is
unrolled over the eight octants in order. -/
def findNearest : OctreeNode → Pt3 → QI → Best
  | .leaf _ _ pts, q, maxSq => leafScan q maxSq pts (.inf, none)
  | .node c s c0 c1 c2 c3 c4 c5 c6 c7, q, maxSq =>
    let oct := octantIndex c q
    let pr :=
      match oct with
      | 0 => findNearest c0 q maxSq
      | 1 => findNearest c1 q maxSq
      | 2 => findNearest c2 q maxSq
      | 3 => findNearest c3 q maxSq
      | 4 => findNearest c4 q maxSq
      | 5 => findNearest c5 q maxSq
      | 6 => findNearest c6 q maxSq
      | _ => findNearest c7 q maxSq
    let md0 := if qiLt pr.1 maxSq then pr.1 else maxSq
    if qiLt (.fin (s * s)) md0 then
      let st8 :=
        sibStep q oct 7 c7 (fun m => findNearest c7 q m)
          (sibStep q oct 6 c6 (fun m => findNearest c6 q m)
            (sibStep q oct 5 c5 (fun m => findNearest c5 q m)
              (sibStep q oct 4 c4 (fun m => findNearest c4 q m)
                (sibStep q oct 3 c3 (fun m => findNearest c3 q m)
                  (sibStep q oct 2 c2 (fun m => findNearest c2 q m)
                    (sibStep q oct 1 c1 (fun m => findNearest c1 q m)
                      (sibStep q oct 0 c0 (fun m => findNearest c0 q m)
                        (pr.1, pr.2, md0))))))))
      (st8.1, st8.2.1)
    else
      (pr.1, pr.2)

/-- All entries stored in the subtree, in leaf order. -/
def stored : OctreeNode → List Entry
  | .leaf _ _ pts => pts
  | .node _ _ c0 c1 c2 c3 c4 c5 c6 c7 =>
    stored c0 ++ stored c1 ++ stored c2 ++ stored c3 ++
    stored c4 ++ stored c5 ++ stored c6 ++ stored c7

end OctreeNode

/-- The `Octree` wrapper class: an optional root. -/
structure Octree where
  root : Option OctreeNode
deriving DecidableEq, Repr

namespace Octree

/-- `Octree()` — the empty octree. -/
def empty : Octree := ⟨none⟩

/-- `Octree.insert`: on the first insertion the source creates a root
`OctreeNode([p.x, p.y, p.z], 1.0)` (empty, default capacity) and inserts
into it; `maxPoints` and `maxDepth` are the node parameters
(`max_points = 10`, `max_depth = 10` in the source defaults; the root is
at depth 0, so its budget is `maxDepth`). -/
def insert (maxPoints maxDepth : ℕ) (o : Octree) (e : Entry) : Octree :=
  match o.root with
  | none => ⟨some (OctreeNode.insertAux maxPoints maxDepth (.leaf e.1 1 []) e)⟩
  | some r => ⟨some (OctreeNode.insertAux maxPoints maxDepth r e)⟩

/-- `Octree.find_nearest` (squared form): `(inf, None)` on an empty
octree, else the root search. -/
def findNearest (o : Octree) (q : Pt3) (maxSq : QI) : OctreeNode.Best :=
  match o.root with
  | none => (.inf, none)
  | some r => r.findNearest q maxSq

/-- The bounding-box constructor `Octree.__init__(points, ...)` for a
non-empty point list: per-axis min/max, center at the midpoint, size =
half the largest extent, widened by 1%; then all points are inserted in
order.  (The source seeds its min/max folds with `±inf`; over a
non-empty list that equals folding from the first element.) -/
def build (maxPoints maxDepth : ℕ) : List Entry → Octree
  | [] => ⟨none⟩
  | e :: rest =>
    let pts := e :: rest
    let lox := rest.foldl (fun a e2 => min a e2.1.x) e.1.x
    let hix := rest.foldl (fun a e2 => max a e2.1.x) e.1.x
    let loy := rest.foldl (fun a e2 => min a e2.1.y) e.1.y
    let hiy := rest.foldl (fun a e2 => max a e2.1.y) e.1.y
    let loz := rest.foldl (fun a e2 => min a e2.1.z) e.1.z
    let hiz := rest.foldl (fun a e2 => max a e2.1.z) e.1.z
    let c : Pt3 := ⟨(lox + hix) / 2, (loy + hiy) / 2, (loz + hiz) / 2⟩
    let s := max (hix - lox) (max (hiy - loy) (hiz - loz)) / 2 * (101 / 100)
    ⟨some (pts.foldl (fun t e2 => OctreeNode.insertAux maxPoints maxDepth t e2)
      (.leaf c s []))⟩

end Octree

/-- Reference brute-force nearest neighbour (the spec's cross-check
baseline): a linear scan over all stored entries with the same
acceptance rule as a single octree leaf. -/
def bruteNearest (pts : List Entry) (q : Pt3) (maxSq : QI) : OctreeNode.Best :=
  OctreeNode.leafScan q maxSq pts (.inf, none)

/-! ## Python dict model

Insertion-ordered association list with in-place update, the semantics of
a Python `dict` keyed by vertex indices: `dput` updates an existing key
in place or appends a fresh binding at the end; `dget` is `dict.get`;
iteration (`dict.items()`) is the list itself. -/

/-- `d[k] = v` on a Python dict. -/
def dput (d : List (ℕ × ℕ)) (k v : ℕ) : List (ℕ × ℕ) :=
  if d.any (fun p => p.1 == k) then
    d.map (fun p => if p.1 == k then (k, v) else p)
  else
    d ++ [(k, v)]

/-- `d.get(k)` on a Python dict. -/
def dget (d : List (ℕ × ℕ)) (k : ℕ) : Option ℕ :=
  (d.find? (fun p => p.1 == k)).map (fun p => p.2)

/-! ## Vertex math helpers (`mathutils.Vector` operations used) -/

/-- Componentwise difference `a - b`. -/
def psub (a b : Pt3) : Pt3 := ⟨a.x - b.x, a.y - b.y, a.z - b.z⟩

/-- Componentwise sum `a + b`. -/
def padd (a b : Pt3) : Pt3 := ⟨a.x + b.x, a.y + b.y, a.z + b.z⟩

/-- Squared norm (`Vector.length` is its square root; every comparison
against it in the source is against a non-negative constant, so squares
compare equivalently). -/
def sqNorm (a : Pt3) : ℚ := a.x * a.x + a.y * a.y + a.z * a.z

/-- `Vector((-v.x, v.y, v.z))` — negate the mirror-axis (X) component. -/
def flipX (a : Pt3) : Pt3 := ⟨-a.x, a.y, a.z⟩

/-! ## `build_mirror_vertex_mapping` (side classifier)

Identical in `operators/mirror_ops.py` (reading `basis_key.data[i].co.x`)
and in `core/mirror_utils.py` (reading either the shape key's or the
mesh's vertex `co.x` — same numbers either way); the vertex source is
abstracted as a coordinate function `co` over indices `0..n-1`. -/

/-- The three index lists `(left, right, center)` with
`center_threshold = 0.0001`: center iff `|x| < 1/10000`, else left iff
`x < 0`, else right.  The source appends into three lists while scanning
`i in range(n)`; we fold over `List.range n`. -/
def build_mirror_vertex_mapping (co : ℕ → Pt3) (n : ℕ) :
    List ℕ × List ℕ × List ℕ :=
  (List.range n).foldl
    (fun acc i =>
      let xc := (co i).x
      if |xc| < 1 / 10000 then (acc.1, acc.2.1, acc.2.2 ++ [i])
      else if xc < 0 then (acc.1 ++ [i], acc.2.1, acc.2.2)
      else (acc.1, acc.2.1 ++ [i], acc.2.2))
    ([], [], [])

/-! ## `create_vertex_mirror_mapping`

Again shared between `operators/mirror_ops.py` and
`core/mirror_utils.py`.  `fromSide` models the Python `from_side`
argument, which is compared only against `'L'` (it is `'L'`, `'R'`, or
`None`).  The tolerance is passed to `Octree.find_nearest` as `max_dist`;
in squared form the bound is `tol * tol`.  The octree is populated
through `Octree()` plus repeated `insert`, so node parameters are the
`OctreeNode` defaults `max_points = 10`, `max_depth = 10`. -/

/-- Result record of `create_vertex_mirror_mapping`:
`(source_vertices, target_vertices, mirror_map, reverse_map)`. -/
structure MirrorMapping where
  src : List ℕ
  tgt : List ℕ
  fwd : List (ℕ × ℕ)
  rev : List (ℕ × ℕ)
deriving DecidableEq, Repr

/-- The octree populated with the target-side vertices (the `Octree()`
plus per-vertex `insert` loop; node parameters are the `OctreeNode`
defaults `max_points = 10`, `max_depth = 10`). -/
def targetOctree (co : ℕ → Pt3) (tgt : List ℕ) : Octree :=
  tgt.foldl (fun o ti => o.insert 10 10 (co ti, ti)) Octree.empty

/-- The per-source-vertex query: mirror the X coordinate and search the
octree with `max_dist = tolerance` (squared bound `tol²`), keeping the
matched label. -/
def mirrorLookup (co : ℕ → Pt3) (octree : Octree) (tol : ℚ) (si : ℕ) :
    Option ℕ :=
  (octree.findNearest (flipX (co si)) (.fin (tol * tol))).2

/-- `create_vertex_mirror_mapping(object_data, from_side, left, right,
center, tolerance)`. -/
def create_vertex_mirror_mapping (co : ℕ → Pt3) (fromSide : Option Char)
    (leftV rightV centerV : List ℕ) (tol : ℚ) : MirrorMapping :=
  let fwd0 := centerV.foldl (fun d i => dput d i i) []
  let src := if fromSide = some 'L' then leftV else rightV
  let tgt := if fromSide = some 'L' then rightV else leftV
  let octree := targetOctree co tgt
  let fwd := src.foldl
    (fun d si =>
      match mirrorLookup co octree tol si with
      | some ti => dput d si ti
      | none => d)
    fwd0
  let rev := fwd.foldl (fun r p => if p.1 ≠ p.2 then dput r p.2 p.1 else r) []
  ⟨src, tgt, fwd, rev⟩

/-! ## `mirror_shape_key`

The new key is seeded with the basis coordinates for every vertex, then
each target-side vertex with a reverse-mapped source vertex whose
source displacement (`source_key - basis` at the source vertex) has
length at least `0.0001` is set to
`basis[target] + flipX(displacement)`.  (`displacement.length < 0.0001`
in the source; squared both sides: `sqNorm < 1/10^8`.)  The result is
the coordinate list of the new key. -/
def mirror_shape_key (basis srcKey : ℕ → Pt3) (n : ℕ)
    (tgtList : List ℕ) (rev : List (ℕ × ℕ)) : List Pt3 :=
  let init := (List.range n).map basis
  tgtList.foldl
    (fun acc ti =>
      match dget rev ti with
      | none => acc
      | some si =>
        let disp := psub (srcKey si) (basis si)
        if sqNorm disp < 1 / 100000000 then acc
        else acc.set ti (padd (basis ti) (flipX disp)))
    init

/-! ## `mesh_mirror_ops.py` — raw mesh forcing -/

/-- `apply_mirror_transformation(mesh, mirror_map)`: for every pair
`(src, tgt)` in dict-iteration order with `src ≠ tgt`, write
`flipX(mesh[src])` into `mesh[tgt]`, reading the CURRENT (sequentially
mutated) mesh.  Result is the mutated coordinate list. -/
def apply_mirror_transformation (mesh : List Pt3) (fwd : List (ℕ × ℕ)) :
    List Pt3 :=
  fwd.foldl
    (fun m p =>
      if p.1 ≠ p.2 then
        match m.get? p.1 with
        | some srcCo => m.set p.2 (flipX srcCo)
        | none => m
      else m)
    mesh

/-- `handle_center_vertices` with `move_to_center`: every vertex with
`|x| <= center_tolerance` (note: weak inequality here, and it rescans
all vertices rather than using the classifier's center list) is snapped
to `x = 0`. -/
def handle_center_vertices (mesh : List Pt3) (moveToCenter : Bool)
    (centerTol : ℚ) : List Pt3 :=
  if moveToCenter then
    mesh.map (fun v => if |v.x| ≤ centerTol then ⟨0, v.y, v.z⟩ else v)
  else mesh

/-- Outcome of an operator `execute`: Blender's `{'FINISHED'}` /
`{'CANCELLED'}`. -/
inductive OpStatus where
  | finished
  | cancelled
deriving DecidableEq, Repr

/-- The object-mode path of `MESH_OT_force_mirror.execute` (host-UI and
edit-mode plumbing stripped; `from_side` resolution of lines 177-187
included): classify, build the correspondence, snap center vertices,
apply the mirror transformation to the whole mesh, collect failed source
vertices, and only then — after the mesh has already been mutated —
return `CANCELLED` when fault-intolerant with failures.  Returns the
status, the final mesh, and the failed list. -/
def force_mirror_execute (mesh : List Pt3) (tol : ℚ) (faultTolerant : Bool)
    (moveToCenter : Bool) (centerTol : ℚ) (fromLeft fromRight : Bool) :
    OpStatus × List Pt3 × List ℕ :=
  let co := fun i => mesh.getD i ⟨0, 0, 0⟩
  let n := mesh.length
  let parts := build_mirror_vertex_mapping co n
  let fromSide : Option Char :=
    if fromLeft && !fromRight then some 'L'
    else if fromRight && !fromLeft then some 'R'
    else some 'L'
  let mm := create_vertex_mirror_mapping co fromSide parts.1 parts.2.1 parts.2.2 tol
  let mesh1 := handle_center_vertices mesh moveToCenter centerTol
  let mesh2 := apply_mirror_transformation mesh1 mm.fwd
  let failed := mm.src.filter (fun v => !(mm.fwd.any (fun p => p.1 == v)))
  let status := if !faultTolerant && !failed.isEmpty then OpStatus.cancelled
    else OpStatus.finished
  (status, mesh2, failed)

/-! ## `SHAPEKEY_OT_mirror_all_missing` — ambiguous-direction choice

Lines 437-479: for a shape key whose name matched no side pattern, build
the correspondence in both directions, count target vertices whose
reverse-mapped source vertex moves by strictly more than `0.0001`
(squared: `> 1/10^8`) under the key, and mirror from `'L'` exactly when
the left-to-right count is strictly larger — otherwise from `'R'`. -/

/-- The deformation-count loop (lines 450-457 / 460-467). -/
def count_side_deformation (basis keyCo : ℕ → Pt3) (tgtList : List ℕ)
    (rev : List (ℕ × ℕ)) : ℕ :=
  tgtList.foldl
    (fun cnt ti =>
      match dget rev ti with
      | none => cnt
      | some si =>
        if 1 / 100000000 < sqNorm (psub (keyCo si) (basis si)) then cnt + 1
        else cnt)
    0

/-- The direction decision for an ambiguous key: `'L'` iff the
left-to-right deformation count is strictly larger (`if
l_side_deformation > r_side_deformation`), else `'R'`. -/
def ambiguous_mirror_direction (basis keyCo : ℕ → Pt3)
    (leftV rightV centerV : List ℕ) (tol : ℚ) : Char :=
  let mmL := create_vertex_mirror_mapping basis (some 'L') leftV rightV centerV tol
  let mmR := create_vertex_mirror_mapping basis (some 'R') leftV rightV centerV tol
  let lCnt := count_side_deformation basis keyCo mmL.tgt mmL.rev
  let rCnt := count_side_deformation basis keyCo mmR.tgt mmR.rev
  if rCnt < lCnt then 'L' else 'R'

/-! ## `detect_shape_key_side` / `generate_mirrored_name`

Shape-key labels are modelled as `List Char`.  The eight regular
expressions are all of the form `([a-zA-Z0-9]+)SUF$` or
`([a-zA-Z0-9]+)[._-]SUF$` under `re.match` — anchored at both ends with
a fixed-length literal tail, so a match decomposes the label uniquely:
the group is the label minus the tail, and must be a non-empty run of
ASCII alphanumerics. -/

/-- `[a-zA-Z0-9]` (ASCII ranges, as in the Python character class). -/
def isAlnumAscii (c : Char) : Bool :=
  ('a' ≤ c && c ≤ 'z') || ('A' ≤ c && c ≤ 'Z') || ('0' ≤ c && c ≤ '9')

/-- `re.match(r'([a-zA-Z0-9]+)SUF$', name)`: succeeds iff `name = g ++
suf` with `g` a non-empty alphanumeric run; returns the group `g`. -/
def matchBaseSuffix (suf name : List Char) : Option (List Char) :=
  let n := name.length
  let k := suf.length
  if k + 1 ≤ n && name.drop (n - k) == suf && (name.take (n - k)).all isAlnumAscii
  then some (name.take (n - k)) else none

/-- `re.match(r'([a-zA-Z0-9]+)[._-]SUF$', name)`: succeeds iff `name =
g ++ [sep] ++ suf` with `g` a non-empty alphanumeric run and `sep` one
of `.`, `_`, `-`; returns the group `g`. -/
def matchSepSuffix (suf name : List Char) : Option (List Char) :=
  let n := name.length
  let k := suf.length
  if k + 2 ≤ n && name.drop (n - k) == suf
      && (name.getD (n - k - 1) ' ' == '.' || name.getD (n - k - 1) ' ' == '_'
          || name.getD (n - k - 1) ' ' == '-')
      && (name.take (n - k - 1)).all isAlnumAscii
  then some (name.take (n - k - 1)) else none

/-- Does `pat` occur as a contiguous subsequence of `l` (Python
`pat in name` on strings)? -/
def startsWithSeq : List Char → List Char → Bool
  | [], _ => true
  | _ :: _, [] => false
  | p :: ps, c :: cs => p == c && startsWithSeq ps cs

/-- Substring occurrence test. -/
def containsSeq (l pat : List Char) : Bool :=
  match l with
  | [] => pat.isEmpty
  | _ :: rest => startsWithSeq pat l || containsSeq rest pat

/-- The parsed `pattern_info` dict. -/
structure PatternInfo where
  baseName : Option (List Char)
  fromSide : Option Char
  toSide : Option Char
  sep : Option (List Char)
deriving DecidableEq, Repr

/-- The separator-recovery chain run when a `[._-]SUF` pattern matched
for suffix letter `sufL` (`'L'` or `'R'`) and word `sufWord` (`"Left"` /
`"Right"`): try `_X`, `.X`, `-X` for the letter, then for the word. -/
def extractSep (name : List Char) (sufL : Char) (sufWord : List Char) :
    Option (List Char) :=
  if containsSeq name ['_', sufL] then some ['_']
  else if containsSeq name ['.', sufL] then some ['.']
  else if containsSeq name ['-', sufL] then some ['-']
  else if containsSeq name ('_' :: sufWord) then some ['_']
  else if containsSeq name ('.' :: sufWord) then some ['.']
  else if containsSeq name ('-' :: sufWord) then some ['-']
  else none

/-- `detect_shape_key_side`: try the four left patterns in order, then
the four right patterns; first match wins. -/
def detect_shape_key_side (name : List Char) : PatternInfo :=
  match matchBaseSuffix ['L'] name with
  | some b => ⟨some b, some 'L', some 'R', some []⟩
  | none =>
  match matchSepSuffix ['L'] name with
  | some b => ⟨some b, some 'L', some 'R', extractSep name 'L' ['L','e','f','t']⟩
  | none =>
  match matchBaseSuffix ['L','e','f','t'] name with
  | some b => ⟨some b, some 'L', some 'R', some []⟩
  | none =>
  match matchSepSuffix ['L','e','f','t'] name with
  | some b => ⟨some b, some 'L', some 'R', extractSep name 'L' ['L','e','f','t']⟩
  | none =>
  match matchBaseSuffix ['R'] name with
  | some b => ⟨some b, some 'R', some 'L', some []⟩
  | none =>
  match matchSepSuffix ['R'] name with
  | some b => ⟨some b, some 'R', some 'L', extractSep name 'R' ['R','i','g','h','t']⟩
  | none =>
  match matchBaseSuffix ['R','i','g','h','t'] name with
  | some b => ⟨some b, some 'R', some 'L', some []⟩
  | none =>
  match matchSepSuffix ['R','i','g','h','t'] name with
  | some b => ⟨some b, some 'R', some 'L', extractSep name 'R' ['R','i','g','h','t']⟩
  | none => ⟨none, none, none, none⟩

/-- The numeric collision probe `while f"{name}_{i}" in shape_keys: i += 1`
(`fuel` bounds the loop; `existing.length + 1` probes always suffice to
reach a free name, so behaviour matches the source whenever the source
loop terminates, which it always does on a finite key set). -/
def probeNumbered (existing : List (List Char)) (base : List Char) :
    ℕ → ℕ → List Char
  | 0, i => base ++ '_' :: (Nat.repr i).toList
  | fuel + 1, i =>
    let cand := base ++ '_' :: (Nat.repr i).toList
    if existing.contains cand then probeNumbered existing base fuel (i + 1)
    else cand

/-- `generate_mirrored_name(shape_key_name, pattern_info, shape_keys)`
(the `operators/mirror_ops.py` version; `shape_keys` is the set of
existing key names). -/
def generate_mirrored_name (name : List Char) (pinfo : PatternInfo)
    (existing : List (List Char)) : List Char :=
  let newName :=
    match pinfo.baseName with
    | none => name ++ ['_','M','i','r','r','o','r']
    | some b =>
      let sep := pinfo.sep.getD []
      if pinfo.toSide = some 'L' && containsSeq name ['R','i','g','h','t'] then
        if !sep.isEmpty then b ++ sep ++ ['L','e','f','t'] else b ++ ['L','e','f','t']
      else if pinfo.toSide = some 'R' && containsSeq name ['L','e','f','t'] then
        if !sep.isEmpty then b ++ sep ++ ['R','i','g','h','t'] else b ++ ['R','i','g','h','t']
      else
        let tos := match pinfo.toSide with | some c => [c] | none => []
        if !sep.isEmpty then b ++ sep ++ tos else b ++ tos
  if existing.contains newName then
    let withMirror := newName ++ ['_','M','i','r','r','o','r']
    if existing.contains withMirror then
      probeNumbered existing withMirror (existing.length + 1) 1
    else withMirror
  else newName

/-! ## `SHAPEKEY_OT_mirror.execute` (core decisions only)

The host plumbing (active object, undo, property dialog) is stripped;
what remains is the decision flow of lines 272-318: require a Basis key,
detect the side (warning when undetected), generate the mirrored name,
classify, build the correspondence with the detected `from_side`
(possibly `None`), and create the mirrored key. -/

/-- Result of the modelled execute: status, whether the
could-not-determine-side warning fired, the generated name, the mapping
used, and the new key's coordinates. -/
structure MirrorExecResult where
  status : OpStatus
  warned : Bool
  newName : List Char
  mapping : MirrorMapping
  newKey : List Pt3
deriving Repr

/-- The modelled `SHAPEKEY_OT_mirror.execute` for a mesh with `n`
vertices, basis coordinates `basis`, active key coordinates `keyCo` and
name `keyName`, and existing key names `existing`. -/
def shapekey_mirror_execute (basis keyCo : ℕ → Pt3) (n : ℕ)
    (keyName : List Char) (existing : List (List Char)) (tol : ℚ)
    (basisPresent : Bool) : Option MirrorExecResult :=
  if !basisPresent then none
  else
    let pinfo := detect_shape_key_side keyName
    let warned := pinfo.baseName = none
    let newName := generate_mirrored_name keyName pinfo existing
    let parts := build_mirror_vertex_mapping basis n
    let mm := create_vertex_mirror_mapping basis pinfo.fromSide
      parts.1 parts.2.1 parts.2.2 tol
    let newKey := mirror_shape_key basis keyCo n mm.tgt mm.rev
    some ⟨.finished, warned, newName, mm, newKey⟩

/-! ## Octree invariants (proof-side definitions) -/

namespace OctreeNode

/-- `t` is an interior node. -/
def isNode : OctreeNode → Prop
  | .leaf _ _ _ => False
  | .node _ _ _ _ _ _ _ _ _ _ => True

/-- Size measure used for recursion through `kid`. -/
theorem kid_sizeOf_lt (c : Pt3) (s : ℚ) (k0 k1 k2 k3 k4 k5 k6 k7 : OctreeNode)
    (i : ℕ) :
    sizeOf ((OctreeNode.node c s k0 k1 k2 k3 k4 k5 k6 k7).kid i) <
      sizeOf (OctreeNode.node c s k0 k1 k2 k3 k4 k5 k6 k7) := by
  rcases i with _ | _ | _ | _ | _ | _ | _ | i <;> simp [kid] <;> omega

/-- The structural invariant maintained by insertion, at depth `d` with
capacity `mp` and depth limit `maxD`:
* a leaf below the depth limit holds at most `mp` entries;
* an interior node sits strictly below the depth limit, and each child
  `i` holds only entries whose octant (relative to the node's center)
  is `i`, recursively. -/
def InvAt (mp maxD : ℕ) : ℕ → OctreeNode → Prop
  | d, .leaf _ _ pts => maxD ≤ d ∨ pts.length ≤ mp
  | d, .node c s k0 k1 k2 k3 k4 k5 k6 k7 =>
    d < maxD ∧
    ∀ i, i < 8 →
      (∀ e ∈ ((OctreeNode.node c s k0 k1 k2 k3 k4 k5 k6 k7).kid i).stored,
          octantIndex c e.1 = i) ∧
      InvAt mp maxD (d + 1) ((OctreeNode.node c s k0 k1 k2 k3 k4 k5 k6 k7).kid i)
termination_by d t => sizeOf t
decreasing_by all_goals exact kid_sizeOf_lt ..

theorem octantIndex_lt8 (c p : Pt3) : octantIndex c p < 8 := by
  unfold octantIndex
  split <;> split <;> split <;> omega

theorem kid_setKid (c : Pt3) (s : ℚ) (k0 k1 k2 k3 k4 k5 k6 k7 : OctreeNode)
    (i j : ℕ) (hi : i < 8) (hj : j < 8) (u : OctreeNode) :
    ((OctreeNode.node c s k0 k1 k2 k3 k4 k5 k6 k7).setKid i u).kid j =
      if j = i then u else (OctreeNode.node c s k0 k1 k2 k3 k4 k5 k6 k7).kid j := by
  interval_cases i <;> interval_cases j <;> simp [kid, setKid]

theorem setKid_center (c : Pt3) (s : ℚ) (k0 k1 k2 k3 k4 k5 k6 k7 : OctreeNode)
    (i : ℕ) (u : OctreeNode) :
    ((OctreeNode.node c s k0 k1 k2 k3 k4 k5 k6 k7).setKid i u).center = c := by
  rcases i with _ | _ | _ | _ | _ | _ | _ | i <;> simp [center, setKid]

theorem setKid_isNode (c : Pt3) (s : ℚ) (k0 k1 k2 k3 k4 k5 k6 k7 : OctreeNode)
    (i : ℕ) (u : OctreeNode) :
    ((OctreeNode.node c s k0 k1 k2 k3 k4 k5 k6 k7).setKid i u).isNode := by
  rcases i with _ | _ | _ | _ | _ | _ | _ | i <;> simp [isNode, setKid]

/-- The stored entries of an interior node, as the sum over its
children. -/
theorem stored_node_eq_sum (c : Pt3) (s : ℚ)
    (k0 k1 k2 k3 k4 k5 k6 k7 : OctreeNode) :
    ((OctreeNode.node c s k0 k1 k2 k3 k4 k5 k6 k7).stored : Multiset Entry) =
      ∑ i ∈ Finset.range 8,
        (((OctreeNode.node c s k0 k1 k2 k3 k4 k5 k6 k7).kid i).stored : Multiset Entry) := by
  simp [Finset.sum_range_succ, stored, kid]

theorem stored_eq_sum (t : OctreeNode) (h : t.isNode) :
    (t.stored : Multiset Entry) =
      ∑ i ∈ Finset.range 8, ((t.kid i).stored : Multiset Entry) := by
  cases t with
  | leaf c s pts => exact absurd h (by simp [isNode])
  | node c s k0 k1 k2 k3 k4 k5 k6 k7 => exact stored_node_eq_sum ..

theorem kid_setKid_of_isNode (t : OctreeNode) (h : t.isNode)
    (i j : ℕ) (hi : i < 8) (hj : j < 8) (u : OctreeNode) :
    (t.setKid i u).kid j = if j = i then u else t.kid j := by
  cases t with
  | leaf c s pts => exact absurd h (by simp [isNode])
  | node c s k0 k1 k2 k3 k4 k5 k6 k7 => exact kid_setKid c s k0 k1 k2 k3 k4 k5 k6 k7 i j hi hj u

theorem setKid_center_of_isNode (t : OctreeNode) (h : t.isNode)
    (i : ℕ) (u : OctreeNode) : (t.setKid i u).center = t.center := by
  cases t with
  | leaf c s pts => exact absurd h (by simp [isNode])
  | node c s k0 k1 k2 k3 k4 k5 k6 k7 => exact setKid_center ..

theorem setKid_isNode_of_isNode (t : OctreeNode) (h : t.isNode)
    (i : ℕ) (u : OctreeNode) : (t.setKid i u).isNode := by
  cases t with
  | leaf c s pts => exact absurd h (by simp [isNode])
  | node c s k0 k1 k2 k3 k4 k5 k6 k7 => exact setKid_isNode ..

/-- `InvAt` at an interior node, phrased through `kid` and `center`. -/
theorem InvAt_node_iff (mp maxD d : ℕ) (t : OctreeNode) (h : t.isNode) :
    InvAt mp maxD d t ↔
      d < maxD ∧ ∀ i, i < 8 →
        (∀ e ∈ (t.kid i).stored, octantIndex t.center e.1 = i) ∧
        InvAt mp maxD (d + 1) (t.kid i) := by
  cases t with
  | leaf c s pts => exact absurd h (by simp [isNode])
  | node c s k0 k1 k2 k3 k4 k5 k6 k7 => rw [InvAt]; rfl

theorem InvAt_leaf_iff (mp maxD d : ℕ) (c : Pt3) (s : ℚ) (pts : List Entry) :
    InvAt mp maxD d (.leaf c s pts) ↔ (maxD ≤ d ∨ pts.length ≤ mp) := by
  rw [InvAt]

/-- The fresh subdivision node satisfies the invariant (all children are
empty leaves). -/
theorem InvAt_subdivided (mp maxD d : ℕ) (c : Pt3) (s : ℚ) (hd : d < maxD) :
    InvAt mp maxD d (subdivided c s) := by
  rw [InvAt_node_iff mp maxD d _ (by simp [subdivided, isNode])]
  refine ⟨hd, fun i hi => ?_⟩
  interval_cases i <;>
    simp [subdivided, kid, stored, InvAt_leaf_iff]

/-- One child-insertion step preserves the invariant and adds the entry
to the stored multiset; this is both the interior case of `insert` and
one step of the post-subdivision redistribution fold. -/
theorem step_inv (mp maxD d : ℕ) (t : OctreeNode) (e : Entry)
    (hn : t.isNode)
    (hinv : InvAt mp maxD d t)
    (IH : ∀ t' e', InvAt mp maxD (d + 1) t' →
      InvAt mp maxD (d + 1) (insertAux mp (maxD - (d + 1)) t' e') ∧
      ((insertAux mp (maxD - (d + 1)) t' e').stored : Multiset Entry) =
        e' ::ₘ ↑(t'.stored)) :
    InvAt mp maxD d
        (t.setKid (octantIndex t.center e.1)
          (insertAux mp (maxD - (d + 1)) (t.kid (octantIndex t.center e.1)) e)) ∧
      ((t.setKid (octantIndex t.center e.1)
          (insertAux mp (maxD - (d + 1)) (t.kid (octantIndex t.center e.1)) e)).stored :
        Multiset Entry) = e ::ₘ ↑(t.stored) := by
  set oct := octantIndex t.center e.1 with hoct
  have hoct8 : oct < 8 := octantIndex_lt8 ..
  rw [InvAt_node_iff mp maxD d t hn] at hinv
  obtain ⟨hd, hkids⟩ := hinv
  obtain ⟨hplace, hkinv⟩ := hkids oct hoct8
  obtain ⟨hinv', hstored'⟩ := IH (t.kid oct) e hkinv
  set u := insertAux mp (maxD - (d + 1)) (t.kid oct) e with hu
  have hnode2 := setKid_isNode_of_isNode t hn oct u
  have hc2 := setKid_center_of_isNode t hn oct u
  constructor
  · rw [InvAt_node_iff mp maxD d _ hnode2, hc2]
    refine ⟨hd, fun j hj => ?_⟩
    rw [kid_setKid_of_isNode t hn oct j hoct8 hj u]
    by_cases hje : j = oct
    · subst hje
      simp only [if_pos rfl]
      refine ⟨fun e2 he2 => ?_, hinv'⟩
      have : e2 ∈ (u.stored : Multiset Entry) := by
        simpa using he2
      rw [hstored'] at this
      rcases Multiset.mem_cons.mp this with h1 | h2
      · subst h1; exact hoct.symm
      · exact hplace e2 (by simpa using h2)
    · rw [if_neg hje]
      exact hkids j hj
  · rw [stored_eq_sum _ hnode2, stored_eq_sum t hn]
    have hmem : oct ∈ Finset.range 8 := Finset.mem_range.mpr hoct8
    rw [← Finset.add_sum_erase _ _ hmem, ← Finset.add_sum_erase _ _ hmem]
    have hrest : ∑ j ∈ (Finset.range 8).erase oct,
        (((t.setKid oct u).kid j).stored : Multiset Entry) =
        ∑ j ∈ (Finset.range 8).erase oct, ((t.kid j).stored : Multiset Entry) := by
      refine Finset.sum_congr rfl fun j hj => ?_
      have hj8 : j < 8 := Finset.mem_range.mp (Finset.mem_of_mem_erase hj)
      have hjne : j ≠ oct := Finset.ne_of_mem_erase hj
      rw [kid_setKid_of_isNode t hn oct j hoct8 hj8 u, if_neg hjne]
    rw [hrest, kid_setKid_of_isNode t hn oct oct hoct8 hoct8 u, if_pos rfl, hstored']
    rw [Multiset.cons_add]

/-- The redistribution fold of `subdivide` preserves the invariant, the
node shape and the center, and accumulates the entries. -/
theorem fold_inv (mp maxD d : ℕ) (c : Pt3)
    (IH : ∀ t' e', InvAt mp maxD (d + 1) t' →
      InvAt mp maxD (d + 1) (insertAux mp (maxD - (d + 1)) t' e') ∧
      ((insertAux mp (maxD - (d + 1)) t' e').stored : Multiset Entry) =
        e' ::ₘ ↑(t'.stored)) :
    ∀ (l : List Entry) (t0 : OctreeNode), t0.isNode → t0.center = c →
      InvAt mp maxD d t0 →
      (l.foldl
        (fun t2 e2 =>
          t2.setKid (octantIndex c e2.1)
            (insertAux mp (maxD - (d + 1)) (t2.kid (octantIndex c e2.1)) e2)) t0).isNode ∧
      (l.foldl
        (fun t2 e2 =>
          t2.setKid (octantIndex c e2.1)
            (insertAux mp (maxD - (d + 1)) (t2.kid (octantIndex c e2.1)) e2)) t0).center = c ∧
      InvAt mp maxD d (l.foldl
        (fun t2 e2 =>
          t2.setKid (octantIndex c e2.1)
            (insertAux mp (maxD - (d + 1)) (t2.kid (octantIndex c e2.1)) e2)) t0) ∧
      ((l.foldl
        (fun t2 e2 =>
          t2.setKid (octantIndex c e2.1)
            (insertAux mp (maxD - (d + 1)) (t2.kid (octantIndex c e2.1)) e2)) t0).stored :
        Multiset Entry) = ↑l + ↑(t0.stored) := by
  intro l
  induction l with
  | nil => intro t0 hn hc hinv; exact ⟨hn, hc, hinv, by simp⟩
  | cons e rest ih =>
    intro t0 hn hc hinv
    subst hc
    have hstep := step_inv mp maxD d t0 e hn hinv IH
    obtain ⟨hinv2, hstored2⟩ := hstep
    set t1 := t0.setKid (octantIndex t0.center e.1)
      (insertAux mp (maxD - (d + 1)) (t0.kid (octantIndex t0.center e.1)) e) with ht1
    have hn1 : t1.isNode := setKid_isNode_of_isNode t0 hn ..
    have hc1 : t1.center = t0.center := setKid_center_of_isNode t0 hn ..
    obtain ⟨ra, rb, rc, rd⟩ := ih t1 hn1 hc1 hinv2
    refine ⟨ra, rb, rc, ?_⟩
    rw [List.foldl_cons] at *
    rw [rd, hstored2]
    simp [add_comm, add_left_comm]

/-- Main insertion invariant: inserting with the correct remaining
budget (`rem = maxD - d`) preserves `InvAt` and adds exactly the new
entry to the stored multiset. -/
theorem insert_inv (mp maxD : ℕ) :
    ∀ (rem d : ℕ) (t : OctreeNode) (e : Entry), rem = maxD - d →
      InvAt mp maxD d t →
      InvAt mp maxD d (insertAux mp rem t e) ∧
        ((insertAux mp rem t e).stored : Multiset Entry) = e ::ₘ ↑(t.stored) := by
  intro rem
  induction rem with
  | zero =>
    intro d t e hrem hinv
    cases t with
    | leaf c s pts =>
      rw [insertAux]
      constructor
      · rw [InvAt_leaf_iff]
        left
        omega
      · simpa [stored] using List.perm_append_singleton e pts
    | node c s k0 k1 k2 k3 k4 k5 k6 k7 =>
      exfalso
      rw [InvAt_node_iff mp maxD d _ (by simp [isNode])] at hinv
      omega
  | succ r ih =>
    intro d t e hrem hinv
    have hd : d < maxD := by omega
    have hr : r = maxD - (d + 1) := by omega
    have IH : ∀ t' e', InvAt mp maxD (d + 1) t' →
        InvAt mp maxD (d + 1) (insertAux mp (maxD - (d + 1)) t' e') ∧
        ((insertAux mp (maxD - (d + 1)) t' e').stored : Multiset Entry) =
          e' ::ₘ ↑(t'.stored) := by
      intro t' e' h
      exact hr ▸ ih (d + 1) t' e' hr h
    cases t with
    | leaf c s pts =>
      rw [insertAux]
      by_cases hlen : mp < (pts ++ [e]).length
      · rw [if_pos hlen]
        have hsub : (subdivided c s).isNode := by simp [subdivided, isNode]
        have hcc : (subdivided c s).center = c := rfl
        have := fold_inv mp maxD d c IH (pts ++ [e]) (subdivided c s) hsub hcc
          (InvAt_subdivided mp maxD d c s hd)
        rw [← hr] at this
        obtain ⟨_, _, hi, hs⟩ := this
        refine ⟨hi, ?_⟩
        rw [hs]
        simp [subdivided, stored]
      · rw [if_neg hlen]
        constructor
        · rw [InvAt_leaf_iff]
          right
          omega
        · simpa [stored] using List.perm_append_singleton e pts
    | node c s k0 k1 k2 k3 k4 k5 k6 k7 =>
      rw [insertAux]
      have hn : (OctreeNode.node c s k0 k1 k2 k3 k4 k5 k6 k7).isNode := by simp [isNode]
      have := step_inv mp maxD d _ e hn hinv IH
      rw [← hr] at this
      exact this

/-! ### Order facts for `QI` -/

theorem qiLe_refl (a : QI) : qiLe a a = true := by
  cases a <;> simp [qiLe]

theorem qiLe_trans {a b c : QI} (h1 : qiLe a b = true) (h2 : qiLe b c = true) :
    qiLe a c = true := by
  cases a <;> cases b <;> cases c <;> simp_all [qiLe] <;> linarith

theorem qiLe_of_qiLt {a b : QI} (h : qiLt a b = true) : qiLe a b = true := by
  cases a <;> cases b <;> simp_all [qiLt, qiLe] <;> linarith

theorem qiLe_of_not_qiLt {a b : QI} (h : ¬ qiLt a b = true) : qiLe b a = true := by
  cases a <;> cases b <;> simp_all [qiLt, qiLe] <;> linarith

/-! ### Soundness of `find_nearest`: any returned label is a stored
entry at exactly the returned (squared) distance. -/

/-- A best-candidate pair is sound for entry list `S` and query `q`. -/
def SoundB (S : List Entry) (q : Pt3) (b : Best) : Prop :=
  (b.1 = .inf ∧ b.2 = none) ∨
    ∃ p i, (p, i) ∈ S ∧ b.1 = .fin (sqDist q p) ∧ b.2 = some i

theorem soundB_mono {S S' : List Entry} {q : Pt3} {b : Best}
    (hsub : ∀ e, e ∈ S → e ∈ S') (h : SoundB S q b) : SoundB S' q b := by
  rcases h with h | ⟨p, i, hm, h1, h2⟩
  · exact Or.inl h
  · exact Or.inr ⟨p, i, hsub _ hm, h1, h2⟩

theorem leafScan_sound (q : Pt3) (maxSq : QI) :
    ∀ (pts : List Entry) (st : Best), SoundB pts q st →
      SoundB pts q (leafScan q maxSq pts st) := by
  suffices h : ∀ (S pts : List Entry) (st : Best), (∀ e ∈ pts, e ∈ S) →
      SoundB S q st → SoundB S q (leafScan q maxSq pts st) by
    intro pts st hst
    exact h pts pts st (fun e he => he) hst
  intro S pts
  induction pts with
  | nil => intro st _ hst; simpa [leafScan] using hst
  | cons e rest ih =>
    intro st hsub hst
    obtain ⟨p, ix⟩ := e
    obtain ⟨bd, bi⟩ := st
    rw [leafScan]
    split
    · exact ih _ (fun e2 he2 => hsub e2 (List.mem_cons_of_mem _ he2))
        (Or.inr ⟨p, ix, hsub _ (List.mem_cons_self _ _), rfl, rfl⟩)
    · exact ih _ (fun e2 he2 => hsub e2 (List.mem_cons_of_mem _ he2)) hst

/-- Soundness of a sibling-search state triple. -/
def Sound3 (S : List Entry) (q : Pt3) (st : QI × Option ℕ × QI) : Prop :=
  SoundB S q (st.1, st.2.1)

theorem sibStep_sound (S : List Entry) (q : Pt3) (oct i : ℕ)
    (ch : OctreeNode) (search : QI → Best) (st : QI × Option ℕ × QI)
    (hsearch : ∀ m, SoundB S q (search m)) (hst : Sound3 S q st) :
    Sound3 S q (sibStep q oct i ch search st) := by
  unfold sibStep
  split
  · exact hst
  split
  · unfold sibCombine
    split
    · exact hsearch _
    · exact hst
  · exact hst

/-- Soundness of the unrolled eight-sibling chain, for an arbitrary
primary result `pr` and tightened bound `md0`. -/
theorem sibChain_sound (S : List Entry) (q : Pt3) (oct : ℕ)
    (c0 c1 c2 c3 c4 c5 c6 c7 : OctreeNode)
    (h0 : ∀ m, SoundB S q (findNearest c0 q m))
    (h1 : ∀ m, SoundB S q (findNearest c1 q m))
    (h2 : ∀ m, SoundB S q (findNearest c2 q m))
    (h3 : ∀ m, SoundB S q (findNearest c3 q m))
    (h4 : ∀ m, SoundB S q (findNearest c4 q m))
    (h5 : ∀ m, SoundB S q (findNearest c5 q m))
    (h6 : ∀ m, SoundB S q (findNearest c6 q m))
    (h7 : ∀ m, SoundB S q (findNearest c7 q m))
    (pr : Best) (md0 : QI) (hpr : SoundB S q pr) :
    SoundB S q
      ((sibStep q oct 7 c7 (fun m => findNearest c7 q m)
        (sibStep q oct 6 c6 (fun m => findNearest c6 q m)
          (sibStep q oct 5 c5 (fun m => findNearest c5 q m)
            (sibStep q oct 4 c4 (fun m => findNearest c4 q m)
              (sibStep q oct 3 c3 (fun m => findNearest c3 q m)
                (sibStep q oct 2 c2 (fun m => findNearest c2 q m)
                  (sibStep q oct 1 c1 (fun m => findNearest c1 q m)
                    (sibStep q oct 0 c0 (fun m => findNearest c0 q m)
                      (pr.1, pr.2, md0))))))))).1,
       (sibStep q oct 7 c7 (fun m => findNearest c7 q m)
        (sibStep q oct 6 c6 (fun m => findNearest c6 q m)
          (sibStep q oct 5 c5 (fun m => findNearest c5 q m)
            (sibStep q oct 4 c4 (fun m => findNearest c4 q m)
              (sibStep q oct 3 c3 (fun m => findNearest c3 q m)
                (sibStep q oct 2 c2 (fun m => findNearest c2 q m)
                  (sibStep q oct 1 c1 (fun m => findNearest c1 q m)
                    (sibStep q oct 0 c0 (fun m => findNearest c0 q m)
                      (pr.1, pr.2, md0))))))))).2.1) := by
  have hst0 : Sound3 S q (pr.1, pr.2, md0) := hpr
  exact sibStep_sound S q oct 7 c7 _ _ h7
    (sibStep_sound S q oct 6 c6 _ _ h6
      (sibStep_sound S q oct 5 c5 _ _ h5
        (sibStep_sound S q oct 4 c4 _ _ h4
          (sibStep_sound S q oct 3 c3 _ _ h3
            (sibStep_sound S q oct 2 c2 _ _ h2
              (sibStep_sound S q oct 1 c1 _ _ h1
                (sibStep_sound S q oct 0 c0 _ _ h0 hst0)))))))

/-- Membership in a child's stored list implies membership in the
node's. -/
theorem mem_stored_kid {t : OctreeNode} (hn : t.isNode) {i : ℕ} (hi : i < 8)
    {e : Entry} (he : e ∈ (t.kid i).stored) : e ∈ t.stored := by
  cases t with
  | leaf c s pts => exact absurd hn (by simp [isNode])
  | node c s k0 k1 k2 k3 k4 k5 k6 k7 =>
    interval_cases i <;> simp [kid] at he <;> simp [stored, he]

/-- `find_nearest` soundness: the result is `(inf, None)` or the exact
squared distance and label of some stored entry. -/
theorem findNearest_sound :
    ∀ (t : OctreeNode) (q : Pt3) (maxSq : QI),
      SoundB t.stored q (findNearest t q maxSq) := by
  intro t
  induction t with
  | leaf c s pts =>
    intro q maxSq
    exact leafScan_sound q maxSq pts (.inf, none) (Or.inl ⟨rfl, rfl⟩)
  | node c s k0 k1 k2 k3 k4 k5 k6 k7 ih0 ih1 ih2 ih3 ih4 ih5 ih6 ih7 =>
    intro q maxSq
    have hm0 : ∀ m, SoundB (OctreeNode.node c s k0 k1 k2 k3 k4 k5 k6 k7).stored q
        (findNearest k0 q m) :=
      fun m => soundB_mono (fun e he => by simp [stored]; tauto) (ih0 q m)
    have hm1 : ∀ m, SoundB (OctreeNode.node c s k0 k1 k2 k3 k4 k5 k6 k7).stored q
        (findNearest k1 q m) :=
      fun m => soundB_mono (fun e he => by simp [stored]; tauto) (ih1 q m)
    have hm2 : ∀ m, SoundB (OctreeNode.node c s k0 k1 k2 k3 k4 k5 k6 k7).stored q
        (findNearest k2 q m) :=
      fun m => soundB_mono (fun e he => by simp [stored]; tauto) (ih2 q m)
    have hm3 : ∀ m, SoundB (OctreeNode.node c s k0 k1 k2 k3 k4 k5 k6 k7).stored q
        (findNearest k3 q m) :=
      fun m => soundB_mono (fun e he => by simp [stored]; tauto) (ih3 q m)
    have hm4 : ∀ m, SoundB (OctreeNode.node c s k0 k1 k2 k3 k4 k5 k6 k7).stored q
        (findNearest k4 q m) :=
      fun m => soundB_mono (fun e he => by simp [stored]; tauto) (ih4 q m)
    have hm5 : ∀ m, SoundB (OctreeNode.node c s k0 k1 k2 k3 k4 k5 k6 k7).stored q
        (findNearest k5 q m) :=
      fun m => soundB_mono (fun e he => by simp [stored]; tauto) (ih5 q m)
    have hm6 : ∀ m, SoundB (OctreeNode.node c s k0 k1 k2 k3 k4 k5 k6 k7).stored q
        (findNearest k6 q m) :=
      fun m => soundB_mono (fun e he => by simp [stored]; tauto) (ih6 q m)
    have hm7 : ∀ m, SoundB (OctreeNode.node c s k0 k1 k2 k3 k4 k5 k6 k7).stored q
        (findNearest k7 q m) :=
      fun m => soundB_mono (fun e he => by simp [stored]; tauto) (ih7 q m)
    have hpr : SoundB (OctreeNode.node c s k0 k1 k2 k3 k4 k5 k6 k7).stored q
        (match octantIndex c q with
          | 0 => findNearest k0 q maxSq
          | 1 => findNearest k1 q maxSq
          | 2 => findNearest k2 q maxSq
          | 3 => findNearest k3 q maxSq
          | 4 => findNearest k4 q maxSq
          | 5 => findNearest k5 q maxSq
          | 6 => findNearest k6 q maxSq
          | _ => findNearest k7 q maxSq) := by
      have h8 := octantIndex_lt8 c q
      interval_cases h : octantIndex c q
      · exact hm0 maxSq
      · exact hm1 maxSq
      · exact hm2 maxSq
      · exact hm3 maxSq
      · exact hm4 maxSq
      · exact hm5 maxSq
      · exact hm6 maxSq
      · exact hm7 maxSq
    rw [findNearest]
    split <;> split
    · exact sibChain_sound _ q (octantIndex c q) k0 k1 k2 k3 k4 k5 k6 k7
        hm0 hm1 hm2 hm3 hm4 hm5 hm6 hm7 _ _ hpr
    · exact hpr
    · exact sibChain_sound _ q (octantIndex c q) k0 k1 k2 k3 k4 k5 k6 k7
        hm0 hm1 hm2 hm3 hm4 hm5 hm6 hm7 _ _ hpr
    · exact hpr

/-! ### Exact-hit completeness: a stored query point is found at
distance 0 (with the default unbounded `max_dist`). -/

theorem sqDist_self (q : Pt3) : sqDist q q = 0 := by
  unfold sqDist; ring

theorem sqDist_nonneg (q p : Pt3) : 0 ≤ sqDist q p := by
  unfold sqDist
  nlinarith [mul_self_nonneg (q.x - p.x), mul_self_nonneg (q.y - p.y),
    mul_self_nonneg (q.z - p.z)]

theorem sqDist_eq_zero {q p : Pt3} (h : sqDist q p = 0) : p = q := by
  unfold sqDist at h
  have hx : q.x - p.x = 0 := by
    nlinarith [mul_self_nonneg (q.x - p.x), mul_self_nonneg (q.y - p.y),
      mul_self_nonneg (q.z - p.z)]
  have hy : q.y - p.y = 0 := by
    nlinarith [mul_self_nonneg (q.x - p.x), mul_self_nonneg (q.y - p.y),
      mul_self_nonneg (q.z - p.z)]
  have hz : q.z - p.z = 0 := by
    nlinarith [mul_self_nonneg (q.x - p.x), mul_self_nonneg (q.y - p.y),
      mul_self_nonneg (q.z - p.z)]
  obtain ⟨qx, qy, qz⟩ := q
  obtain ⟨px, py, pz⟩ := p
  simp only [Pt3.mk.injEq]
  refine ⟨?_, ?_, ?_⟩ <;> [skip; skip; skip] <;> linarith [hx, hy, hz]

theorem leafScan_mono (q : Pt3) (maxSq : QI) :
    ∀ (pts : List Entry) (st : Best),
      qiLe (leafScan q maxSq pts st).1 st.1 = true := by
  intro pts
  induction pts with
  | nil => intro st; simp [leafScan, qiLe_refl]
  | cons e rest ih =>
    intro st
    obtain ⟨p, ix⟩ := e
    obtain ⟨bd, bi⟩ := st
    rw [leafScan]
    split
    · rename_i hcond
      have h1 := ih (QI.fin (sqDist q p), some ix)
      have h2 : qiLt (QI.fin (sqDist q p)) bd = true := by
        simp only [Bool.and_eq_true] at hcond
        exact hcond.1
      exact qiLe_trans h1 (qiLe_of_qiLt h2)
    · exact ih (bd, bi)

theorem leafScan_hit (q : Pt3) (maxSq : QI) :
    ∀ (pts : List Entry) (st : Best) (p0 : Pt3) (i0 : ℕ),
      (p0, i0) ∈ pts → qiLe (.fin (sqDist q p0)) maxSq = true →
      qiLe (leafScan q maxSq pts st).1 (.fin (sqDist q p0)) = true := by
  intro pts
  induction pts with
  | nil => intro st p0 i0 hmem; exact absurd hmem (List.not_mem_nil _)
  | cons e rest ih =>
    intro st p0 i0 hmem hok
    obtain ⟨p, ix⟩ := e
    obtain ⟨bd, bi⟩ := st
    rcases List.mem_cons.mp hmem with heq | hrest
    · injection heq with hp hi
      subst hp
      rw [leafScan]
      split
      · exact leafScan_mono q maxSq rest _
      · rename_i hcond
        simp only [Bool.and_eq_true, not_and_or] at hcond
        rcases hcond with hlt | hle
        · have hble : qiLe bd (.fin (sqDist q p0)) = true :=
            qiLe_of_not_qiLt (by simpa using hlt)
          exact qiLe_trans (leafScan_mono q maxSq rest (bd, bi)) hble
        · exact absurd hok (by simpa using hle)
    · rw [leafScan]
      split
      · exact ih _ p0 i0 hrest hok
      · exact ih _ p0 i0 hrest hok

/-- When the primary search already returned a squared distance `≤ 0`,
the tightened bound is that distance, the `max_dist > self.size` gate is
closed (`s² ≥ 0`), and the interior branch returns the primary result. -/
theorem gate_skip (s : ℚ) (pr : Best) (a : ℚ) (hfa : pr.1 = .fin a)
    (ha0 : a ≤ 0) (x : Best) :
    qiLe (if qiLt (.fin (s * s)) (if qiLt pr.1 QI.inf then pr.1 else QI.inf)
      then x else (pr.1, pr.2)).1 (.fin 0) = true := by
  rw [hfa]
  have h1 : qiLt (QI.fin a) QI.inf = true := by simp [qiLt]
  rw [if_pos h1]
  have hgate : ¬ (qiLt (QI.fin (s * s)) (QI.fin a) = true) := by
    simp only [qiLt, decide_eq_true_eq]
    nlinarith [mul_self_nonneg s]
  rw [if_neg hgate]
  simp only [qiLe, decide_eq_true_eq]
  exact ha0

/-- With an unbounded `max_dist`, `find_nearest` on a tree satisfying
the placement invariant returns squared distance at most 0 for a stored
query point. -/
theorem findNearest_exact_le (mp maxD : ℕ) :
    ∀ (t : OctreeNode) (d : ℕ), InvAt mp maxD d t → ∀ (P : Pt3) (i0 : ℕ),
      (P, i0) ∈ t.stored → qiLe (findNearest t P .inf).1 (.fin 0) = true := by
  intro t
  induction t with
  | leaf c s pts =>
    intro d hinv P i0 hmem
    rw [findNearest]
    have := leafScan_hit P QI.inf pts (.inf, none) P i0 hmem (by simp [qiLe])
    simpa [sqDist_self] using this
  | node c s k0 k1 k2 k3 k4 k5 k6 k7 ih0 ih1 ih2 ih3 ih4 ih5 ih6 ih7 =>
    intro d hinv P i0 hmem
    have hn : (OctreeNode.node c s k0 k1 k2 k3 k4 k5 k6 k7).isNode := by
      simp [isNode]
    rw [InvAt_node_iff mp maxD d _ hn] at hinv
    obtain ⟨hd, hkids⟩ := hinv
    have hsome : ∃ j, j < 8 ∧
        (P, i0) ∈ ((OctreeNode.node c s k0 k1 k2 k3 k4 k5 k6 k7).kid j).stored := by
      simp only [stored, List.mem_append] at hmem
      rcases hmem with ((((((h | h) | h) | h) | h) | h) | h) | h
      · exact ⟨0, by omega, by simpa [kid] using h⟩
      · exact ⟨1, by omega, by simpa [kid] using h⟩
      · exact ⟨2, by omega, by simpa [kid] using h⟩
      · exact ⟨3, by omega, by simpa [kid] using h⟩
      · exact ⟨4, by omega, by simpa [kid] using h⟩
      · exact ⟨5, by omega, by simpa [kid] using h⟩
      · exact ⟨6, by omega, by simpa [kid] using h⟩
      · exact ⟨7, by omega, by simpa [kid] using h⟩
    obtain ⟨j, hj8, hjmem⟩ := hsome
    have hoct : octantIndex c P = j := (hkids j hj8).1 (P, i0) hjmem
    have hprle : qiLe (findNearest
        ((OctreeNode.node c s k0 k1 k2 k3 k4 k5 k6 k7).kid j) P .inf).1
        (.fin 0) = true := by
      have hkinv := (hkids j hj8).2
      interval_cases j <;> simp only [kid] at hjmem hkinv ⊢ <;>
        first
          | exact ih0 (d+1) hkinv P i0 hjmem
          | exact ih1 (d+1) hkinv P i0 hjmem
          | exact ih2 (d+1) hkinv P i0 hjmem
          | exact ih3 (d+1) hkinv P i0 hjmem
          | exact ih4 (d+1) hkinv P i0 hjmem
          | exact ih5 (d+1) hkinv P i0 hjmem
          | exact ih6 (d+1) hkinv P i0 hjmem
          | exact ih7 (d+1) hkinv P i0 hjmem
    obtain ⟨a, hfa, ha0⟩ : ∃ a, (findNearest
        ((OctreeNode.node c s k0 k1 k2 k3 k4 k5 k6 k7).kid j) P .inf).1 =
          .fin a ∧ a ≤ 0 := by
      rcases hfn : (findNearest
          ((OctreeNode.node c s k0 k1 k2 k3 k4 k5 k6 k7).kid j) P .inf).1 with
        _ | _
      · rw [hfn] at hprle
        exact ⟨_, rfl, by simpa [qiLe] using hprle⟩
      · rw [hfn] at hprle
        simp [qiLe] at hprle
    rw [findNearest, hoct]
    interval_cases j <;> exact gate_skip s _ a hfa ha0 _

/-- A stored query point is found: squared distance exactly 0 and the
label of a stored entry whose point equals the query point. -/
theorem findNearest_exact (mp maxD : ℕ) (t : OctreeNode) (d : ℕ)
    (hinv : InvAt mp maxD d t) (P : Pt3) (i0 : ℕ)
    (hmem : (P, i0) ∈ t.stored) :
    ∃ i, findNearest t P .inf = (.fin 0, some i) ∧ (P, i) ∈ t.stored := by
  have hle := findNearest_exact_le mp maxD t d hinv P i0 hmem
  have hsound := findNearest_sound t P .inf
  unfold SoundB at hsound
  rcases hsound with ⟨h1, h2⟩ | ⟨p, i, hmem2, h1, h2⟩
  · rw [h1] at hle
    simp [qiLe] at hle
  · rw [h1] at hle
    have hd0 : sqDist P p = 0 := by
      have hge := sqDist_nonneg P p
      have : sqDist P p ≤ 0 := by simpa [qiLe] using hle
      linarith
    have hp : p = P := sqDist_eq_zero hd0
    subst hp
    refine ⟨i, ?_, hmem2⟩
    rw [hd0] at h1
    exact Prod.ext h1 h2

/-! ### Claim-side depth/capacity predicates (the wording of the
invariant claim, separate from `InvAt`). -/

/-- Every node of the subtree rooted at depth `d` sits at depth at most
`maxD`. -/
def depthBound (maxD : ℕ) : ℕ → OctreeNode → Prop
  | d, .leaf _ _ _ => d ≤ maxD
  | d, .node _ _ k0 k1 k2 k3 k4 k5 k6 k7 =>
    d ≤ maxD ∧ depthBound maxD (d+1) k0 ∧ depthBound maxD (d+1) k1 ∧
    depthBound maxD (d+1) k2 ∧ depthBound maxD (d+1) k3 ∧
    depthBound maxD (d+1) k4 ∧ depthBound maxD (d+1) k5 ∧
    depthBound maxD (d+1) k6 ∧ depthBound maxD (d+1) k7

/-- Every leaf at depth strictly below `maxD` holds at most `mp`
entries. -/
def leafCapOk (mp maxD : ℕ) : ℕ → OctreeNode → Prop
  | d, .leaf _ _ pts => d < maxD → pts.length ≤ mp
  | d, .node _ _ k0 k1 k2 k3 k4 k5 k6 k7 =>
    leafCapOk mp maxD (d+1) k0 ∧ leafCapOk mp maxD (d+1) k1 ∧
    leafCapOk mp maxD (d+1) k2 ∧ leafCapOk mp maxD (d+1) k3 ∧
    leafCapOk mp maxD (d+1) k4 ∧ leafCapOk mp maxD (d+1) k5 ∧
    leafCapOk mp maxD (d+1) k6 ∧ leafCapOk mp maxD (d+1) k7

theorem depthBound_of_InvAt (mp maxD : ℕ) :
    ∀ (t : OctreeNode) (d : ℕ), d ≤ maxD → InvAt mp maxD d t →
      depthBound maxD d t := by
  intro t
  induction t with
  | leaf c s pts => intro d hd _; exact hd
  | node c s k0 k1 k2 k3 k4 k5 k6 k7 ih0 ih1 ih2 ih3 ih4 ih5 ih6 ih7 =>
    intro d _ hinv
    rw [InvAt_node_iff mp maxD d _ (by simp [isNode])] at hinv
    obtain ⟨hd, hkids⟩ := hinv
    refine ⟨by omega, ?_, ?_, ?_, ?_, ?_, ?_, ?_, ?_⟩
    · exact ih0 (d+1) (by omega) (by simpa [kid] using (hkids 0 (by omega)).2)
    · exact ih1 (d+1) (by omega) (by simpa [kid] using (hkids 1 (by omega)).2)
    · exact ih2 (d+1) (by omega) (by simpa [kid] using (hkids 2 (by omega)).2)
    · exact ih3 (d+1) (by omega) (by simpa [kid] using (hkids 3 (by omega)).2)
    · exact ih4 (d+1) (by omega) (by simpa [kid] using (hkids 4 (by omega)).2)
    · exact ih5 (d+1) (by omega) (by simpa [kid] using (hkids 5 (by omega)).2)
    · exact ih6 (d+1) (by omega) (by simpa [kid] using (hkids 6 (by omega)).2)
    · exact ih7 (d+1) (by omega) (by simpa [kid] using (hkids 7 (by omega)).2)

theorem leafCapOk_of_InvAt (mp maxD : ℕ) :
    ∀ (t : OctreeNode) (d : ℕ), InvAt mp maxD d t → leafCapOk mp maxD d t := by
  intro t
  induction t with
  | leaf c s pts =>
    intro d hinv
    rw [InvAt_leaf_iff] at hinv
    intro hd
    rcases hinv with h | h
    · omega
    · exact h
  | node c s k0 k1 k2 k3 k4 k5 k6 k7 ih0 ih1 ih2 ih3 ih4 ih5 ih6 ih7 =>
    intro d hinv
    rw [InvAt_node_iff mp maxD d _ (by simp [isNode])] at hinv
    obtain ⟨hd, hkids⟩ := hinv
    exact ⟨ih0 (d+1) (by simpa [kid] using (hkids 0 (by omega)).2),
      ih1 (d+1) (by simpa [kid] using (hkids 1 (by omega)).2),
      ih2 (d+1) (by simpa [kid] using (hkids 2 (by omega)).2),
      ih3 (d+1) (by simpa [kid] using (hkids 3 (by omega)).2),
      ih4 (d+1) (by simpa [kid] using (hkids 4 (by omega)).2),
      ih5 (d+1) (by simpa [kid] using (hkids 5 (by omega)).2),
      ih6 (d+1) (by simpa [kid] using (hkids 6 (by omega)).2),
      ih7 (d+1) (by simpa [kid] using (hkids 7 (by omega)).2)⟩

/-- An overflowing leaf with positive remaining budget subdivides into
an interior node (eight children by construction) centered where the
leaf was, and redistributes exactly its own points plus the new entry. -/
theorem insert_overflow_subdivides (mp maxD : ℕ) (c : Pt3) (s : ℚ)
    (pts : List Entry) (e : Entry) (d : ℕ) (hd : d < maxD)
    (hlen : mp < (pts ++ [e]).length) :
    (insertAux mp (maxD - d) (.leaf c s pts) e).isNode ∧
    (insertAux mp (maxD - d) (.leaf c s pts) e).center = c ∧
    ((insertAux mp (maxD - d) (.leaf c s pts) e).stored : Multiset Entry) =
      ↑(pts ++ [e]) := by
  obtain ⟨r, hr⟩ : ∃ r, maxD - d = r + 1 := ⟨maxD - d - 1, by omega⟩
  have IH : ∀ t' e', InvAt mp maxD (d + 1) t' →
      InvAt mp maxD (d + 1) (insertAux mp (maxD - (d + 1)) t' e') ∧
      ((insertAux mp (maxD - (d + 1)) t' e').stored : Multiset Entry) =
        e' ::ₘ ↑(t'.stored) :=
    fun t' e' h => insert_inv mp maxD (maxD - (d+1)) (d+1) t' e' rfl h
  have hfold := fold_inv mp maxD d c IH (pts ++ [e]) (subdivided c s)
    (by simp [subdivided, isNode]) rfl (InvAt_subdivided mp maxD d c s hd)
  obtain ⟨ha, hb, _, hs⟩ := hfold
  rw [hr]
  rw [insertAux, if_pos hlen]
  have hrr : maxD - (d + 1) = r := by omega
  rw [hrr] at ha hb hs
  refine ⟨ha, hb, ?_⟩
  rw [hs]
  simp [subdivided, stored]

end OctreeNode

/-! ### Octree wrapper invariants -/

namespace Octree

/-- All entries stored in the wrapper. -/
def storedO : Octree → List Entry
  | ⟨none⟩ => []
  | ⟨some r⟩ => r.stored

/-- Wrapper well-formedness for node parameters `(mp, maxD)`: the root,
if any, satisfies the insertion invariant at depth 0. -/
def WF (mp maxD : ℕ) (o : Octree) : Prop :=
  ∀ r, o.root = some r → OctreeNode.InvAt mp maxD 0 r

theorem WF_empty (mp maxD : ℕ) : WF mp maxD Octree.empty := by
  intro r h
  simp [Octree.empty] at h

theorem insert_wf (mp maxD : ℕ) (o : Octree) (e : Entry)
    (h : WF mp maxD o) :
    WF mp maxD (o.insert mp maxD e) ∧
      ((o.insert mp maxD e).storedO : Multiset Entry) = e ::ₘ ↑o.storedO := by
  have hrem : maxD = maxD - 0 := by omega
  obtain ⟨or⟩ := o
  cases or with
  | none =>
    have hleaf : OctreeNode.InvAt mp maxD 0 (.leaf e.1 1 []) := by
      rw [OctreeNode.InvAt_leaf_iff]
      right
      simp
    have := OctreeNode.insert_inv mp maxD maxD 0 (.leaf e.1 1 []) e hrem hleaf
    constructor
    · intro r hr
      simp only [Octree.insert, Option.some.injEq] at hr
      exact hr ▸ this.1
    · simp only [Octree.insert, storedO]
      exact this.2
  | some r =>
    have := OctreeNode.insert_inv mp maxD maxD 0 r e hrem (h r rfl)
    constructor
    · intro r2 hr2
      simp only [Octree.insert, Option.some.injEq] at hr2
      exact hr2 ▸ this.1
    · simp only [Octree.insert, storedO]
      exact this.2

/-- Folding a list of insertions over a well-formed wrapper. -/
theorem insertMany_wf (mp maxD : ℕ) :
    ∀ (es : List Entry) (o : Octree), WF mp maxD o →
      WF mp maxD (es.foldl (fun o2 e => o2.insert mp maxD e) o) ∧
      ((es.foldl (fun o2 e => o2.insert mp maxD e) o).storedO : Multiset Entry) =
        ↑es + ↑o.storedO := by
  intro es
  induction es with
  | nil => intro o h; exact ⟨h, by simp⟩
  | cons e rest ih =>
    intro o h
    obtain ⟨h1, h2⟩ := insert_wf mp maxD o e h
    obtain ⟨h3, h4⟩ := ih (o.insert mp maxD e) h1
    refine ⟨h3, ?_⟩
    rw [List.foldl_cons] at *
    rw [h4, h2]
    simp [add_comm, add_left_comm]

/-- Folding node-level insertions from an empty leaf. -/
theorem buildAux_wf (mp maxD : ℕ) (c : Pt3) (s : ℚ) :
    ∀ (l : List Entry),
      OctreeNode.InvAt mp maxD 0
        (l.foldl (fun t2 e2 => OctreeNode.insertAux mp maxD t2 e2) (.leaf c s [])) ∧
      ((l.foldl (fun t2 e2 => OctreeNode.insertAux mp maxD t2 e2)
          (OctreeNode.leaf c s [])).stored : Multiset Entry) = ↑l := by
  have hrem : maxD = maxD - 0 := by omega
  have hfold : ∀ (l : List Entry) (t : OctreeNode),
      OctreeNode.InvAt mp maxD 0 t →
      OctreeNode.InvAt mp maxD 0
        (l.foldl (fun t2 e2 => OctreeNode.insertAux mp maxD t2 e2) t) ∧
      ((l.foldl (fun t2 e2 => OctreeNode.insertAux mp maxD t2 e2) t).stored :
        Multiset Entry) = ↑l + ↑t.stored := by
    intro l
    induction l with
    | nil => intro t h; exact ⟨h, by simp⟩
    | cons e2 rest2 ih =>
      intro t h
      obtain ⟨h1, h2⟩ := OctreeNode.insert_inv mp maxD maxD 0 t e2 hrem h
      obtain ⟨h3, h4⟩ := ih _ h1
      refine ⟨h3, ?_⟩
      rw [List.foldl_cons] at *
      rw [h4, h2]
      simp [add_comm, add_left_comm]
  intro l
  have hleaf : OctreeNode.InvAt mp maxD 0 (.leaf c s []) := by
    rw [OctreeNode.InvAt_leaf_iff]
    right
    simp
  have := hfold l _ hleaf
  refine ⟨this.1, ?_⟩
  rw [this.2]
  simp [OctreeNode.stored]

/-- The bounding-box constructor produces a well-formed octree storing
exactly the given entries. -/
theorem build_wf (mp maxD : ℕ) (es : List Entry) :
    WF mp maxD (Octree.build mp maxD es) ∧
      ((Octree.build mp maxD es).storedO : Multiset Entry) = ↑es := by
  cases es with
  | nil => exact ⟨WF_empty mp maxD, by simp [Octree.build, storedO]⟩
  | cons e rest =>
    constructor
    · intro r hr
      simp only [Octree.build, Option.some.injEq] at hr
      exact hr ▸ (buildAux_wf mp maxD _ _ _).1
    · simp only [Octree.build, storedO]
      exact (buildAux_wf mp maxD _ _ _).2

end Octree

/-! ## Dict-model lemmas -/

theorem option_or_map {α β : Type} (a b : Option α) (f : α → β) :
    (a.or b).map f = (a.map f).or (b.map f) := by
  cases a <;> cases b <;> rfl

theorem dget_nil (k : ℕ) : dget [] k = none := rfl

theorem dget_append (d1 d2 : List (ℕ × ℕ)) (k : ℕ) :
    dget (d1 ++ d2) k = (dget d1 k).or (dget d2 k) := by
  unfold dget
  rw [List.find?_append]
  cases List.find? (fun p => p.1 == k) d1 <;> rfl

theorem find?_map_update_ne (d : List (ℕ × ℕ)) (k v k' : ℕ) (hne : k' ≠ k) :
    List.find? (fun p => p.1 == k')
        (d.map (fun p => if p.1 == k then (k, v) else p)) =
      List.find? (fun p => p.1 == k') d := by
  induction d with
  | nil => rfl
  | cons q rest ih =>
    by_cases hq : q.1 = k
    · have hbeq : (q.1 == k) = true := by simpa using hq
      have h1 : ((k, v).1 == k') = false := by simpa using (Ne.symm hne)
      have h2 : (q.1 == k') = false := by simp [hq, Ne.symm hne]
      simp only [List.map_cons, hbeq, Bool.false_eq_true, Bool.true_eq_false,
        reduceIte, if_true, if_false, List.find?_cons, h1, h2]
      exact ih
    · have hbeq : (q.1 == k) = false := by simpa using hq
      simp only [List.map_cons, hbeq, Bool.false_eq_true, if_false, List.find?_cons]
      cases hq2 : (q.1 == k')
      · simp only [hq2]
        exact ih
      · simp only [hq2]

theorem find?_map_update_eq (d : List (ℕ × ℕ)) (k v : ℕ)
    (h : d.any (fun p => p.1 == k) = true) :
    List.find? (fun p => p.1 == k)
        (d.map (fun p => if p.1 == k then (k, v) else p)) = some (k, v) := by
  induction d with
  | nil => simp at h
  | cons q rest ih =>
    by_cases hq : q.1 = k
    · have hbeq : (q.1 == k) = true := by simpa using hq
      simp [hq]
    · have hbeq : (q.1 == k) = false := by simpa using hq
      simp only [List.any_cons, hbeq, Bool.false_or] at h
      simp only [List.map_cons, hbeq, Bool.false_eq_true, if_false, List.find?_cons]
      exact ih h

/-- `dput` then `dget`: last write wins on the written key, other keys
unchanged. -/
theorem dget_dput (d : List (ℕ × ℕ)) (k v k' : ℕ) :
    dget (dput d k v) k' = if k' = k then some v else dget d k' := by
  unfold dput
  by_cases hany : d.any (fun p => p.1 == k) = true
  · rw [if_pos hany]
    by_cases hk : k' = k
    · subst hk
      unfold dget
      rw [find?_map_update_eq d k' v hany]
      simp
    · unfold dget
      rw [find?_map_update_ne d k v k' hk]
      rw [if_neg hk]
  · rw [if_neg hany]
    rw [dget_append]
    by_cases hk : k' = k
    · subst hk
      have hnone : dget d k' = none := by
        unfold dget
        rw [List.find?_eq_none.mpr]
        · rfl
        · intro p hp
          simp only [Bool.not_eq_true]
          rcases hb : (p.1 == k') with _ | _
          · rfl
          · exfalso
            exact hany (List.any_eq_true.mpr ⟨p, hp, hb⟩)
      rw [hnone]
      simp [dget]
    · have hone : dget [(k, v)] k' = none := by
        have hb : (k == k') = false := by
          simp only [beq_eq_false_iff_ne, ne_eq]
          exact fun hc => hk hc.symm
        simp [dget, List.find?, hb]
      rw [hone]
      simp [hk]
theorem dput_fresh (d : List (ℕ × ℕ)) (k v : ℕ)
    (h : ∀ p ∈ d, p.1 ≠ k) : dput d k v = d ++ [(k, v)] := by
  have hany : (d.any fun p => p.1 == k) = false := by
    rw [List.any_eq_false]
    intro p hp
    simpa using h p hp
  unfold dput
  rw [hany]
  simp

/-- The center-seeding loop writes fresh keys in order. -/
theorem fwd0_eq (l : List ℕ) :
    ∀ acc : List (ℕ × ℕ), (∀ i ∈ l, ∀ p ∈ acc, p.1 ≠ i) → l.Nodup →
      l.foldl (fun d i => dput d i i) acc = acc ++ l.map (fun i => (i, i)) := by
  induction l with
  | nil => intro acc _ _; simp
  | cons i rest ih =>
    intro acc hfresh hnd
    rw [List.foldl_cons, dput_fresh acc i i (fun p hp => hfresh i (by simp) p hp)]
    rw [ih (acc ++ [(i, i)]) ?_ (List.Nodup.of_cons hnd)]
    · simp
    · intro j hj p hp
      rcases List.mem_append.mp hp with hp1 | hp2
      · exact hfresh j (List.mem_cons_of_mem _ hj) p hp1
      · have : p = (i, i) := by simpa using hp2
        subst this
        have hnr : i ∉ rest := (List.nodup_cons.mp hnd).1
        intro hc
        have hci : i = j := by simpa using hc
        exact hnr (hci ▸ hj)

/-- The source-matching loop appends fresh bindings in source order. -/
theorem fwdFold_eq (look : ℕ → Option ℕ) (l : List ℕ) :
    ∀ acc : List (ℕ × ℕ), (∀ s2 ∈ l, ∀ p ∈ acc, p.1 ≠ s2) → l.Nodup →
      l.foldl (fun d si => match look si with
        | some ti => dput d si ti
        | none => d) acc
      = acc ++ l.filterMap (fun si => (look si).map (fun ti => (si, ti))) := by
  induction l with
  | nil => intro acc _ _; simp
  | cons s rest ih =>
    intro acc hfresh hnd
    rw [List.foldl_cons]
    cases hg : look s with
    | none =>
      have hred : (match (none : Option ℕ) with
        | some ti => dput acc s ti
        | none => acc) = acc := rfl
      rw [hred]
      rw [ih acc (fun s2 hs2 p hp => hfresh s2 (List.mem_cons_of_mem _ hs2) p hp)
        (List.Nodup.of_cons hnd)]
      simp [List.filterMap_cons, hg]
    | some t =>
      have hred : (match (some t : Option ℕ) with
        | some ti => dput acc s ti
        | none => acc) = dput acc s t := rfl
      rw [hred]
      rw [dput_fresh acc s t (fun p hp => hfresh s (by simp) p hp)]
      rw [ih (acc ++ [(s, t)]) ?_ (List.Nodup.of_cons hnd)]
      · simp [List.filterMap_cons, hg]
      · intro j hj p hp
        rcases List.mem_append.mp hp with hp1 | hp2
        · exact hfresh j (List.mem_cons_of_mem _ hj) p hp1
        · have hpe : p = (s, t) := by simpa using hp2
          subst hpe
          have hnr : s ∉ rest := (List.nodup_cons.mp hnd).1
          intro hc
          have hci : s = j := by simpa using hc
          exact hnr (hci ▸ hj)

/-- The reverse-map loop: the binding for `t` is the LAST forward pair
`(s, t)` with `s ≠ t`, i.e. the first one in reversed iteration order. -/
theorem revFold_eq (l : List (ℕ × ℕ)) :
    ∀ (r : List (ℕ × ℕ)) (t : ℕ),
      dget (l.foldl (fun r2 p => if p.1 ≠ p.2 then dput r2 p.2 p.1 else r2) r) t
      = ((l.reverse.find? (fun p => decide (p.1 ≠ p.2) && p.2 == t)).map
          (fun p => p.1)).or (dget r t) := by
  induction l with
  | nil => intro r t; simp
  | cons p rest ih =>
    intro r t
    rw [List.foldl_cons, ih]
    rw [List.reverse_cons, List.find?_append]
    cases h1 : rest.reverse.find? (fun p2 => decide (p2.1 ≠ p2.2) && p2.2 == t) with
    | some p2 => simp
    | none =>
      rcases hf : (decide (p.1 ≠ p.2) && (p.2 == t)) with _ | _
      · have hsing : List.find? (fun p2 => decide (p2.1 ≠ p2.2) && p2.2 == t) [p]
            = none := by
          simp only [List.find?_singleton, hf, Bool.false_eq_true, if_false]
        rw [hsing]
        simp only [Option.or_none, Option.map_none', Option.none_or]
        have hf2 : p.1 ≠ p.2 → ¬ p.2 = t := by
          intro hna hnb
          have hT : (decide (p.1 ≠ p.2) && (p.2 == t)) = true := by
            subst hnb
            simp [hna]
          rw [hf] at hT
          exact Bool.false_ne_true hT
        by_cases hpp : p.1 = p.2
        · rw [if_neg (by simpa using hpp)]
        · rw [if_pos (by simpa using hpp)]
          rw [dget_dput]
          rw [if_neg (fun hc : t = p.2 => hf2 hpp hc.symm)]
      · have hsing : List.find? (fun p2 => decide (p2.1 ≠ p2.2) && p2.2 == t) [p]
            = some p := by
          simp only [List.find?_singleton, hf, if_true]
        rw [hsing]
        simp only [Option.map_some', Option.none_or]
        simp only [Bool.and_eq_true, decide_eq_true_eq, beq_iff_eq] at hf
        rw [if_pos (by simpa using hf.1)]
        rw [dget_dput, if_pos hf.2.symm]
        simp

/-- Identity pairs never contribute to the reverse map. -/
theorem find?_rev_identity (l : List ℕ) (t : ℕ) :
    (l.map (fun i => (i, i))).reverse.find?
      (fun p => decide (p.1 ≠ p.2) && p.2 == t) = none := by
  rw [List.find?_eq_none]
  intro p hp
  simp only [List.mem_reverse, List.mem_map] at hp
  obtain ⟨i, _, hi⟩ := hp
  subst hi
  simp

/-- Restriction of the reverse-iteration search to the matched pairs. -/
theorem matchedRev_find (look : ℕ → Option ℕ) (t : ℕ) :
    ∀ l : List ℕ, (∀ s2 ∈ l, ∀ t2, look s2 = some t2 → s2 ≠ t2) →
      (((l.filterMap (fun si => (look si).map (fun ti => (si, ti)))).reverse.find?
          (fun p => decide (p.1 ≠ p.2) && p.2 == t)).map (fun p => p.1))
        = l.reverse.find? (fun s2 => look s2 == some t) := by
  intro l
  induction l with
  | nil => intro _; simp
  | cons s rest ih =>
    intro hne
    have ihr := ih (fun s2 hs2 => hne s2 (List.mem_cons_of_mem _ hs2))
    rw [List.reverse_cons, List.find?_append]
    cases hg : look s with
    | none =>
      rw [List.filterMap_cons, hg]
      have hone : List.find? (fun s2 => look s2 == some t) [s] = none := by
        simp [List.find?_singleton, hg]
      rw [hone, Option.or_none]
      exact ihr
    | some ti =>
      rw [List.filterMap_cons, hg]
      have hred : ((some ti).map fun t2 => (s, t2)) = some (s, ti) := rfl
      rw [hred]
      rw [List.reverse_cons, List.find?_append]
      rw [option_or_map, ihr]
      have hsne : s ≠ ti := hne s (by simp) ti hg
      have hdec : decide (s ≠ ti) = true := by simpa using hsne
      have hsingle : ((List.find? (fun p => decide (p.1 ≠ p.2) && p.2 == t)
          [(s, ti)]).map (fun p => p.1)) =
          List.find? (fun s2 => look s2 == some t) [s] := by
        rw [List.find?_singleton, List.find?_singleton]
        have hc1 : (decide ((s, ti).1 ≠ (s, ti).2) && ((s, ti).2 == t))
            = (ti == t) := by
          simp [hdec]
        have hc2 : (look s == some t) = (ti == t) := by
          rw [hg]
          rfl
        rw [hc1, hc2]
        rcases hti : (ti == t : Bool) with _ | _
        · simp
        · simp
      rw [hsingle]

/-! ## Octree label-membership lemmas -/

theorem findNearestO_label_mem (o : Octree) (q : Pt3) (m : QI) (i : ℕ)
    (h : (o.findNearest q m).2 = some i) : ∃ p, (p, i) ∈ o.storedO := by
  obtain ⟨or⟩ := o
  cases or with
  | none => simp [Octree.findNearest] at h
  | some r =>
    have hs := OctreeNode.findNearest_sound r q m
    unfold OctreeNode.SoundB at hs
    simp only [Octree.findNearest] at h
    rcases hs with ⟨h1, h2⟩ | ⟨p, i2, hmem, h1, h2⟩
    · rw [h2] at h
      exact absurd h (by simp)
    · rw [h2] at h
      obtain rfl : i2 = i := by simpa using h
      exact ⟨p, hmem⟩

theorem targetOctree_stored (co : ℕ → Pt3) (tgt : List ℕ) :
    ((targetOctree co tgt).storedO : Multiset Entry) =
      ↑(tgt.map (fun ti => (co ti, ti))) := by
  have := Octree.insertMany_wf 10 10 (tgt.map (fun ti => (co ti, ti))) Octree.empty
    (Octree.WF_empty 10 10)
  have heq : targetOctree co tgt =
      (tgt.map (fun ti => (co ti, ti))).foldl
        (fun o2 e => o2.insert 10 10 e) Octree.empty := by
    unfold targetOctree
    rw [List.foldl_map]
  rw [heq, this.2]
  simp [Octree.storedO, Octree.empty]

/-- A successful mirror lookup returns a target-side vertex index. -/
theorem mirrorLookup_mem_tgt (co : ℕ → Pt3) (tgt : List ℕ) (tol : ℚ)
    (s ti : ℕ) (h : mirrorLookup co (targetOctree co tgt) tol s = some ti) :
    ti ∈ tgt := by
  obtain ⟨p, hp⟩ := findNearestO_label_mem _ _ _ _ h
  have : (p, ti) ∈ ((targetOctree co tgt).storedO : Multiset Entry) := by
    simpa using hp
  rw [targetOctree_stored] at this
  have : (p, ti) ∈ tgt.map (fun tj => (co tj, tj)) := by simpa using this
  obtain ⟨tj, htj, hpair⟩ := List.mem_map.mp this
  obtain ⟨h1, h2⟩ := Prod.mk.injEq .. ▸ hpair
  exact h2 ▸ htj

/-- Looking up a center vertex in the seeded-then-extended forward map. -/
theorem find?_center_map (l : List ℕ) (i : ℕ) (hi : i ∈ l) :
    List.find? (fun p => p.1 == i) (l.map (fun j => (j, j))) = some (i, i) := by
  induction l with
  | nil => exact absurd hi (List.not_mem_nil _)
  | cons j rest ih =>
    by_cases hj : j = i
    · subst hj
      simp [List.find?_cons]
    · have : (j == i) = false := by simpa using hj
      simp only [List.map_cons, List.find?_cons, this]
      have hir : i ∈ rest := by
        rcases List.mem_cons.mp hi with h | h
        · exact absurd h.symm hj
        · exact h
      exact ih hir

/-! ## Classifier characterization (`build_mirror_vertex_mapping`) -/

/-- One classifier pass: each scanned index is appended to exactly one
of the three accumulators, so the pass is a triple of filters. -/
theorem bmvm_fold (co : ℕ → Pt3) :
    ∀ (l : List ℕ) (a b c : List ℕ),
      l.foldl
        (fun (acc : List ℕ × List ℕ × List ℕ) i =>
          let xc := (co i).x
          if |xc| < 1 / 10000 then (acc.1, acc.2.1, acc.2.2 ++ [i])
          else if xc < 0 then (acc.1 ++ [i], acc.2.1, acc.2.2)
          else (acc.1, acc.2.1 ++ [i], acc.2.2))
        (a, b, c) =
      (a ++ l.filter (fun i => !decide (|(co i).x| < 1 / 10000)
          && decide ((co i).x < 0)),
       b ++ l.filter (fun i => !decide (|(co i).x| < 1 / 10000)
          && !decide ((co i).x < 0)),
       c ++ l.filter (fun i => decide (|(co i).x| < 1 / 10000))) := by
  intro l
  induction l with
  | nil => intro a b c; simp
  | cons i rest ih =>
    intro a b c
    rw [List.foldl_cons]
    simp only []
    by_cases h1 : |(co i).x| < 1 / 10000
    · rw [if_pos h1]
      rw [ih]
      have hd1 : decide (|(co i).x| < 1 / 10000) = true := decide_eq_true h1
      simp only [List.filter_cons, hd1, Bool.not_true, Bool.false_and,
        Bool.false_eq_true, eq_self_iff_true, if_false, if_true]
      simp only [List.append_assoc, List.singleton_append]
    · by_cases h2 : (co i).x < 0
      · rw [if_neg h1, if_pos h2]
        rw [ih]
        have hd1 : decide (|(co i).x| < 1 / 10000) = false := by simpa using h1
        have hd2 : decide ((co i).x < 0) = true := decide_eq_true h2
        simp only [List.filter_cons, hd1, hd2, Bool.not_false, Bool.not_true,
          Bool.true_and, Bool.false_eq_true, eq_self_iff_true, if_false, if_true]
        simp only [List.append_assoc, List.singleton_append]
      · rw [if_neg h1, if_neg h2]
        rw [ih]
        have hd1 : decide (|(co i).x| < 1 / 10000) = false := by simpa using h1
        have hd2 : decide ((co i).x < 0) = false := by simpa using h2
        simp only [List.filter_cons, hd1, hd2, Bool.not_false, Bool.not_true,
          Bool.true_and, Bool.false_eq_true, eq_self_iff_true, if_false, if_true]
        simp only [List.append_assoc, List.singleton_append]

/-- Three pairwise-exclusive, exhaustive filters split a list's length. -/
theorem filter3_len (f g : ℕ → Bool) :
    ∀ l : List ℕ,
      (l.filter (fun i => !f i && g i)).length
        + (l.filter (fun i => !f i && !g i)).length
        + (l.filter (fun i => f i)).length = l.length := by
  intro l
  induction l with
  | nil => simp
  | cons i rest ih =>
    rcases hf : f i with _ | _ <;> rcases hg : g i with _ | _ <;>
      simp [List.filter_cons, hf, hg] <;> omega

/-! ## `count_side_deformation` as a filter length -/

/-- The deformation-count loop counts exactly the target vertices whose
reverse-mapped source displacement is above the threshold. -/
theorem count_fold_filter (basis keyCo : ℕ → Pt3) (rev : List (ℕ × ℕ)) :
    ∀ (l : List ℕ) (k : ℕ),
      l.foldl
        (fun cnt ti =>
          match dget rev ti with
          | none => cnt
          | some si =>
            if 1 / 100000000 < sqNorm (psub (keyCo si) (basis si)) then cnt + 1
            else cnt)
        k
      = k + (l.filter (fun ti =>
          match dget rev ti with
          | none => false
          | some si =>
            decide (1 / 100000000 < sqNorm (psub (keyCo si) (basis si))))).length := by
  intro l
  induction l with
  | nil => intro k; simp
  | cons t rest ih =>
    intro k
    rw [List.foldl_cons, List.filter_cons]
    cases hg : dget rev t with
    | none => simp only [hg]; simpa using ih k
    | some si =>
      by_cases hbig : 1 / 100000000 < sqNorm (psub (keyCo si) (basis si))
      · simp only [hg, if_pos hbig, decide_eq_true hbig, if_true]
        rw [ih (k + 1)]
        simp only [List.length_cons]
        omega
      · simp only [hg, if_neg hbig]
        have hd : decide (1 / 100000000 < sqNorm (psub (keyCo si) (basis si)))
            = false := by simpa using hbig
        simp only [hd, Bool.false_eq_true, if_false]
        exact ih k

theorem count_side_deformation_filter (basis keyCo : ℕ → Pt3)
    (tgtList : List ℕ) (rev : List (ℕ × ℕ)) :
    count_side_deformation basis keyCo tgtList rev
      = (tgtList.filter (fun ti =>
          match dget rev ti with
          | none => false
          | some si =>
            decide (1 / 100000000 < sqNorm (psub (keyCo si) (basis si))))).length := by
  unfold count_side_deformation
  simpa using count_fold_filter basis keyCo rev tgtList 0

/-! ## `mirror_shape_key` characterization -/

/-- The per-target write rule of `mirror_shape_key`: `none` when the
vertex is skipped (no reverse-mapped source, or source displacement
magnitude below the epsilon), otherwise the written coordinate. -/
def mskWrite (basis srcKey : ℕ → Pt3) (rev : List (ℕ × ℕ)) (ti : ℕ) :
    Option Pt3 :=
  match dget rev ti with
  | none => none
  | some si =>
    if sqNorm (psub (srcKey si) (basis si)) < 1 / 100000000 then none
    else some (padd (basis ti) (flipX (psub (srcKey si) (basis si))))

theorem mskWrite_getD_idem (o : Option Pt3) (x : Pt3) :
    o.getD (o.getD x) = o.getD x := by
  cases o <;> simp

/-- One step of the `mirror_shape_key` fold, at any read index. -/
theorem msk_step_get (basis srcKey : ℕ → Pt3) (rev : List (ℕ × ℕ))
    (acc : List Pt3) (t v : ℕ) :
    ((match dget rev t with
      | none => acc
      | some si =>
        let disp := psub (srcKey si) (basis si)
        if sqNorm disp < 1 / 100000000 then acc
        else acc.set t (padd (basis t) (flipX disp))) : List Pt3).get? v =
      if t = v then
        (acc.get? v).map (fun old => (mskWrite basis srcKey rev t).getD old)
      else acc.get? v := by
  cases hg : dget rev t with
  | none =>
    simp only [hg, mskWrite]
    by_cases htv : t = v
    · rw [if_pos htv]
      cases acc.get? v <;> simp
    · rw [if_neg htv]
  | some si =>
    simp only [hg, mskWrite]
    by_cases hsmall : sqNorm (psub (srcKey si) (basis si)) < 1 / 100000000
    · simp only [if_pos hsmall]
      by_cases htv : t = v
      · rw [if_pos htv]
        cases acc.get? v <;> simp
      · rw [if_neg htv]
    · simp only [if_neg hsmall]
      rw [List.get?_set]
      by_cases htv : t = v
      · rw [if_pos htv, if_pos htv]
        cases acc.get? v <;> simp
      · rw [if_neg htv, if_neg htv]

/-- One step of the `mirror_shape_key` fold preserves the length. -/
theorem msk_step_len (basis srcKey : ℕ → Pt3) (rev : List (ℕ × ℕ))
    (acc : List Pt3) (t : ℕ) :
    ((match dget rev t with
      | none => acc
      | some si =>
        let disp := psub (srcKey si) (basis si)
        if sqNorm disp < 1 / 100000000 then acc
        else acc.set t (padd (basis t) (flipX disp))) : List Pt3).length
      = acc.length := by
  cases hg : dget rev t with
  | none => simp only [hg]
  | some si =>
    simp only [hg]
    by_cases hsmall : sqNorm (psub (srcKey si) (basis si)) < 1 / 100000000
    · simp only [if_pos hsmall]
    · simp only [if_neg hsmall, List.length_set]

/-- The `mirror_shape_key` fold: length is preserved and every read
index sees either its original value or the write rule's value. -/
theorem msk_fold (basis srcKey : ℕ → Pt3) (rev : List (ℕ × ℕ)) :
    ∀ (l : List ℕ) (acc : List Pt3),
      ((l.foldl
        (fun acc2 ti =>
          match dget rev ti with
          | none => acc2
          | some si =>
            let disp := psub (srcKey si) (basis si)
            if sqNorm disp < 1 / 100000000 then acc2
            else acc2.set ti (padd (basis ti) (flipX disp))) acc).length
        = acc.length) ∧
      ∀ v, (l.foldl
        (fun acc2 ti =>
          match dget rev ti with
          | none => acc2
          | some si =>
            let disp := psub (srcKey si) (basis si)
            if sqNorm disp < 1 / 100000000 then acc2
            else acc2.set ti (padd (basis ti) (flipX disp))) acc).get? v =
        if v ∈ l then
          (acc.get? v).map (fun old => (mskWrite basis srcKey rev v).getD old)
        else acc.get? v := by
  intro l
  induction l with
  | nil =>
    intro acc
    refine ⟨rfl, fun v => by simp⟩
  | cons t rest ih =>
    intro acc
    rw [List.foldl_cons]
    constructor
    · rw [(ih _).1]
      exact msk_step_len basis srcKey rev acc t
    · intro v
      rw [(ih _).2 v, msk_step_get basis srcKey rev acc t v]
      by_cases hvr : v ∈ rest
      · rw [if_pos hvr]
        by_cases htv : t = v
        · subst htv
          rw [if_pos rfl, if_pos (by simp)]
          cases hA : acc.get? t <;>
            simp [mskWrite_getD_idem]
        · rw [if_neg htv, if_pos (by simp [hvr])]
      · rw [if_neg hvr]
        by_cases htv : t = v
        · subst htv
          rw [if_pos rfl, if_pos (by simp)]
        · rw [if_neg htv, if_neg (by simp [htv, hvr, Ne.symm])]

/-- `mirror_shape_key` read off per index. -/
theorem mirror_shape_key_get (basis srcKey : ℕ → Pt3) (n : ℕ)
    (tgtList : List ℕ) (rev : List (ℕ × ℕ)) :
    (mirror_shape_key basis srcKey n tgtList rev).length = n ∧
    ∀ v, v < n →
      (mirror_shape_key basis srcKey n tgtList rev).get? v =
        some (if v ∈ tgtList
          then (mskWrite basis srcKey rev v).getD (basis v)
          else basis v) := by
  unfold mirror_shape_key
  have hf := msk_fold basis srcKey rev tgtList ((List.range n).map basis)
  constructor
  · rw [hf.1]
    simp
  · intro v hv
    rw [hf.2 v]
    have hinit : ((List.range n).map basis).get? v = some (basis v) := by
      rw [List.get?_map, List.get?_range hv]
      rfl
    by_cases hm : v ∈ tgtList
    · rw [if_pos hm, if_pos hm, hinit]
      rfl
    · rw [if_neg hm, if_neg hm, hinit]

/-! ## Remaining dictionary lemmas for the correspondence claim -/

/-- The center-seed block holds no key outside the center list. -/
theorem find?_center_map_none (l : List ℕ) (s : ℕ) (hs : s ∉ l) :
    List.find? (fun p => p.1 == s) (l.map (fun j => (j, j))) = none := by
  rw [List.find?_eq_none]
  intro p hp
  obtain ⟨j, hj, hje⟩ := List.mem_map.mp hp
  subst hje
  intro hc
  have hjs : j = s := by simpa using hc
  exact hs (hjs ▸ hj)

/-- The matched block holds no key whose lookup failed. -/
theorem find?_matched_none (look : ℕ → Option ℕ) (l : List ℕ) (s : ℕ)
    (hg : look s = none) :
    List.find? (fun p => p.1 == s)
      (l.filterMap (fun si => (look si).map (fun ti => (si, ti)))) = none := by
  rw [List.find?_eq_none]
  intro p hp
  obtain ⟨si, _, hmap⟩ := List.mem_filterMap.mp hp
  cases hl : look si with
  | none => rw [hl] at hmap; exact absurd hmap (by simp)
  | some ti =>
    rw [hl] at hmap
    have hpe : (si, ti) = p := by simpa using hmap
    subst hpe
    intro hc
    have hss : si = s := by simpa using hc
    rw [hss, hg] at hl
    exact absurd hl (by simp)

/-- The matched block binds a successfully looked-up source to its
match. -/
theorem find?_matched_some (look : ℕ → Option ℕ) :
    ∀ (l : List ℕ) (s : ℕ), s ∈ l → ∀ ti, look s = some ti →
      List.find? (fun p => p.1 == s)
        (l.filterMap (fun si => (look si).map (fun tj => (si, tj))))
        = some (s, ti) := by
  intro l
  induction l with
  | nil => intro s hs; exact absurd hs (List.not_mem_nil _)
  | cons j rest ih =>
    intro s hs ti hg
    rw [List.filterMap_cons]
    by_cases hjs : j = s
    · subst hjs
      rw [hg]
      simp
    · cases hl : look j with
      | none =>
        have hsr : s ∈ rest := by
          rcases List.mem_cons.mp hs with h | h
          · exact absurd h.symm hjs
          · exact h
        exact ih s hsr ti hg
      | some tj =>
        have hsr : s ∈ rest := by
          rcases List.mem_cons.mp hs with h | h
          · exact absurd h.symm hjs
          · exact h
        have hred : ((some tj).map fun t2 => (j, t2)) = some (j, tj) := rfl
        rw [hred, List.find?_cons]
        have hbeq : ((j, tj).1 == s) = false := by simpa using hjs
        rw [hbeq]
        simp only [Bool.false_eq_true, if_false]
        exact ih s hsr ti hg

/-! ## The detector's fallthrough -/

/-- When no pattern matches, `detect_shape_key_side` returns the
all-`None` record. -/
theorem detect_none (name : List Char)
    (h : (detect_shape_key_side name).baseName = none) :
    detect_shape_key_side name = ⟨none, none, none, none⟩ := by
  unfold detect_shape_key_side at h ⊢
  cases h1 : matchBaseSuffix ['L'] name with
  | some b => simp only [h1] at h; exact absurd h (by simp)
  | none =>
  simp only [h1] at h ⊢
  cases h2 : matchSepSuffix ['L'] name with
  | some b => simp only [h2] at h; exact absurd h (by simp)
  | none =>
  simp only [h2] at h ⊢
  cases h3 : matchBaseSuffix ['L','e','f','t'] name with
  | some b => simp only [h3] at h; exact absurd h (by simp)
  | none =>
  simp only [h3] at h ⊢
  cases h4 : matchSepSuffix ['L','e','f','t'] name with
  | some b => simp only [h4] at h; exact absurd h (by simp)
  | none =>
  simp only [h4] at h ⊢
  cases h5 : matchBaseSuffix ['R'] name with
  | some b => simp only [h5] at h; exact absurd h (by simp)
  | none =>
  simp only [h5] at h ⊢
  cases h6 : matchSepSuffix ['R'] name with
  | some b => simp only [h6] at h; exact absurd h (by simp)
  | none =>
  simp only [h6] at h ⊢
  cases h7 : matchBaseSuffix ['R','i','g','h','t'] name with
  | some b => simp only [h7] at h; exact absurd h (by simp)
  | none =>
  simp only [h7] at h ⊢
  cases h8 : matchSepSuffix ['R','i','g','h','t'] name with
  | some b => simp only [h8] at h; exact absurd h (by simp)
  | none => simp only [h8]

/-! ## Octree wrapper: exact hit for a stored point -/

/-- Entries of `storedO` up to permutation. -/
theorem storedO_mem_iff {S : List Entry} {o : Octree}
    (h : (o.storedO : Multiset Entry) = ↑S) (a : Entry) :
    a ∈ o.storedO ↔ a ∈ S :=
  (Multiset.coe_eq_coe.mp h).mem_iff

/-! # Claim theorems

One theorem per claim of the specification, with closed witnesses and
counterexamples where applicable.  All distances appear in squared form
(see the header): a Python `max_dist` of `d` is the bound `.fin (d*d)`,
and a returned distance of `d` is the component `.fin (d*d)`. -/

set_option maxRecDepth 8000 in
set_option maxHeartbeats 3200000 in
/-- Claim C1: the spec says `find_nearest` agrees with a brute-force
linear scan on every query.  It does not: on the point set
`{(0,0,0)↦0, (1001,0,0)↦1, (2000,0,0)↦2}` with `max_points = 1`, the
query `(999,0,0)` with `max_dist = 10` (squared bound `100`) returns
"not found" from the octree although the brute-force scan finds point
`1` at distance `2` (squared `4`): the `max_dist > self.size` gate in
the interior branch skips the sibling octant that holds the nearer
point across the splitting plane. -/
theorem claim_C1 :
    (Octree.build 1 10 [((⟨0,0,0⟩ : Pt3), 0), (⟨1001,0,0⟩, 1), (⟨2000,0,0⟩, 2)]).findNearest
        ⟨999,0,0⟩ (.fin 100) = (.inf, none) ∧
    bruteNearest [((⟨0,0,0⟩ : Pt3), 0), (⟨1001,0,0⟩, 1), (⟨2000,0,0⟩, 2)]
        ⟨999,0,0⟩ (.fin 100) = (.fin 4, some 1) := by
  constructor
  · norm_num [Octree.build, Octree.findNearest, OctreeNode.insertAux,
      OctreeNode.findNearest, OctreeNode.leafScan, OctreeNode.subdivided,
      OctreeNode.setKid, OctreeNode.kid, OctreeNode.center, OctreeNode.halfWidth,
      OctreeNode.sibStep, OctreeNode.sibCombine, OctreeNode.sibNeeded,
      OctreeNode.minDistSqToOctant, octantIndex, sqDist, qiLt, qiLe,
      min_def, max_def, List.foldl_cons, List.foldl_nil]
  · norm_num [bruteNearest, OctreeNode.leafScan, sqDist, qiLt, qiLe]

set_option maxRecDepth 8000 in
set_option maxHeartbeats 3200000 in
/-- Claim C2: shape-key mirroring seeds the new key with the rest pose
and rewrites exactly the target vertices holding a reverse-mapped source
vertex whose displacement is at least the epsilon, writing the target
rest coordinate plus the X-flipped source displacement (`mskWrite`);
and on the 5-vertex mesh with x-coordinates `-1, -1/2, 0, 1/2, 1` and a
key displacing the `x = -1` vertex by `(0,1,0)`, mirroring left-to-right
with tolerance `1/100` displaces exactly the `x = 1` vertex by `(0,1,0)`. -/
theorem claim_C2 :
    (∀ (basis srcKey : ℕ → Pt3) (n : ℕ) (tgtList : List ℕ)
        (rev : List (ℕ × ℕ)),
      (mirror_shape_key basis srcKey n tgtList rev).length = n ∧
      ∀ v, v < n →
        (mirror_shape_key basis srcKey n tgtList rev).get? v =
          some (if v ∈ tgtList
            then (mskWrite basis srcKey rev v).getD (basis v)
            else basis v)) ∧
    (let b5 : ℕ → Pt3 := fun i => ⟨[-1, -1/2, 0, 1/2, 1].getD i 0, 0, 0⟩
     let k5 : ℕ → Pt3 := fun i => if i = 0 then ⟨-1, 1, 0⟩ else b5 i
     let parts := build_mirror_vertex_mapping b5 5
     let mm := create_vertex_mirror_mapping b5 (some 'L')
       parts.1 parts.2.1 parts.2.2 (1/100)
     mirror_shape_key b5 k5 5 mm.tgt mm.rev =
       [⟨-1,0,0⟩, ⟨-1/2,0,0⟩, ⟨0,0,0⟩, ⟨1/2,0,0⟩, ⟨1,1,0⟩]) := by
  constructor
  · intro basis srcKey n tgtList rev
    exact mirror_shape_key_get basis srcKey n tgtList rev
  · norm_num [mirror_shape_key, build_mirror_vertex_mapping,
      create_vertex_mirror_mapping, targetOctree, mirrorLookup,
      Octree.empty, Octree.insert, Octree.findNearest, OctreeNode.insertAux,
      OctreeNode.findNearest, OctreeNode.leafScan, dput, dget, sqDist,
      qiLt, qiLe, flipX, psub, padd, sqNorm, abs_eq_max_neg, max_def,
      min_def, List.range_succ, List.foldl_cons, List.foldl_nil, List.getD,
      List.filter_cons, List.any_cons]

/-- Witness for claim C2's general part at a concrete instance. -/
theorem claim_C2_witness :
    (mirror_shape_key (fun _ => (⟨0,0,0⟩ : Pt3)) (fun _ => ⟨0,0,0⟩)
        2 [1] [(1, 0)]).length = 2 ∧
    ∀ v, v < 2 →
      (mirror_shape_key (fun _ => (⟨0,0,0⟩ : Pt3)) (fun _ => ⟨0,0,0⟩)
          2 [1] [(1, 0)]).get? v =
        some (if v ∈ [1]
          then (mskWrite (fun _ => ⟨0,0,0⟩) (fun _ => ⟨0,0,0⟩) [(1, 0)] v).getD
            ⟨0,0,0⟩
          else ⟨0,0,0⟩) :=
  claim_C2.1 (fun _ => ⟨0,0,0⟩) (fun _ => ⟨0,0,0⟩) 2 [1] [(1, 0)]

set_option maxRecDepth 8000 in
set_option maxHeartbeats 3200000 in
/-- Claim C3: the spec reads the fault-intolerant mode as "abort without
partial mutation".  The code mutates first and only then reports
`CANCELLED`: on the mesh `[(-1,0,0), (1.0005,0,0), (-5,2,3)]` with
tolerance `1/1000`, source vertex `2` has no match, the status is
`CANCELLED`, yet vertex `1` has already been overwritten with the
mirror of vertex `0` — the returned mesh differs from the input. -/
theorem claim_C3 :
    force_mirror_execute [⟨-1,0,0⟩, ⟨10005/10000,0,0⟩, ⟨-5,2,3⟩]
        (1/1000) false true (1/10000) true false
      = (.cancelled, [⟨-1,0,0⟩, ⟨1,0,0⟩, ⟨-5,2,3⟩], [2]) ∧
    ([⟨-1,0,0⟩, ⟨1,0,0⟩, ⟨-5,2,3⟩] : List Pt3)
      ≠ [⟨-1,0,0⟩, ⟨10005/10000,0,0⟩, ⟨-5,2,3⟩] := by
  constructor
  · norm_num [force_mirror_execute, build_mirror_vertex_mapping,
      create_vertex_mirror_mapping, targetOctree, mirrorLookup,
      Octree.empty, Octree.insert, Octree.findNearest, OctreeNode.insertAux,
      OctreeNode.findNearest, OctreeNode.leafScan, handle_center_vertices,
      apply_mirror_transformation, dput, dget, sqDist, qiLt, qiLe, flipX,
      abs_eq_max_neg, max_def, min_def,
      List.range_succ, List.foldl_cons, List.foldl_nil, List.getD,
      List.filter_cons, List.any_cons]
  · norm_num [Pt3.mk.injEq]

/-- Claim C4 (amended): for an ambiguous key the orchestration counts
deforming target vertices in both directions and mirrors from the side
with the strictly larger count; when the counts are equal it chooses
`'R'` (right-to-left), not left-to-right as the spec stated. -/
theorem claim_C4 (basis keyCo : ℕ → Pt3) (leftV rightV centerV : List ℕ)
    (tol : ℚ) :
    (count_side_deformation basis keyCo
        (create_vertex_mirror_mapping basis (some 'L') leftV rightV centerV tol).tgt
        (create_vertex_mirror_mapping basis (some 'L') leftV rightV centerV tol).rev
      = ((create_vertex_mirror_mapping basis (some 'L') leftV rightV centerV tol).tgt.filter
          (fun ti =>
            match dget (create_vertex_mirror_mapping basis (some 'L') leftV rightV centerV tol).rev ti with
            | none => false
            | some si =>
              decide (1 / 100000000 < sqNorm (psub (keyCo si) (basis si))))).length) ∧
    (count_side_deformation basis keyCo
        (create_vertex_mirror_mapping basis (some 'R') leftV rightV centerV tol).tgt
        (create_vertex_mirror_mapping basis (some 'R') leftV rightV centerV tol).rev
      = ((create_vertex_mirror_mapping basis (some 'R') leftV rightV centerV tol).tgt.filter
          (fun ti =>
            match dget (create_vertex_mirror_mapping basis (some 'R') leftV rightV centerV tol).rev ti with
            | none => false
            | some si =>
              decide (1 / 100000000 < sqNorm (psub (keyCo si) (basis si))))).length) ∧
    (count_side_deformation basis keyCo
        (create_vertex_mirror_mapping basis (some 'R') leftV rightV centerV tol).tgt
        (create_vertex_mirror_mapping basis (some 'R') leftV rightV centerV tol).rev
      < count_side_deformation basis keyCo
        (create_vertex_mirror_mapping basis (some 'L') leftV rightV centerV tol).tgt
        (create_vertex_mirror_mapping basis (some 'L') leftV rightV centerV tol).rev →
      ambiguous_mirror_direction basis keyCo leftV rightV centerV tol = 'L') ∧
    (count_side_deformation basis keyCo
        (create_vertex_mirror_mapping basis (some 'L') leftV rightV centerV tol).tgt
        (create_vertex_mirror_mapping basis (some 'L') leftV rightV centerV tol).rev
      ≤ count_side_deformation basis keyCo
        (create_vertex_mirror_mapping basis (some 'R') leftV rightV centerV tol).tgt
        (create_vertex_mirror_mapping basis (some 'R') leftV rightV centerV tol).rev →
      ambiguous_mirror_direction basis keyCo leftV rightV centerV tol = 'R') := by
  have hdir : ambiguous_mirror_direction basis keyCo leftV rightV centerV tol
      = if count_side_deformation basis keyCo
            (create_vertex_mirror_mapping basis (some 'R') leftV rightV centerV tol).tgt
            (create_vertex_mirror_mapping basis (some 'R') leftV rightV centerV tol).rev
          < count_side_deformation basis keyCo
            (create_vertex_mirror_mapping basis (some 'L') leftV rightV centerV tol).tgt
            (create_vertex_mirror_mapping basis (some 'L') leftV rightV centerV tol).rev
        then 'L' else 'R' := rfl
  refine ⟨count_side_deformation_filter basis keyCo _ _,
    count_side_deformation_filter basis keyCo _ _, ?_, ?_⟩
  · intro h
    rw [hdir, if_pos h]
  · intro h
    rw [hdir, if_neg (Nat.not_lt.mpr h)]

/-- Witness for claim C4 at the empty classification. -/
theorem claim_C4_witness :
    count_side_deformation (fun _ => (⟨0,0,0⟩ : Pt3)) (fun _ => ⟨0,0,0⟩)
        (create_vertex_mirror_mapping (fun _ => ⟨0,0,0⟩) (some 'L') [] [] [] 1).tgt
        (create_vertex_mirror_mapping (fun _ => ⟨0,0,0⟩) (some 'L') [] [] [] 1).rev
      ≤ count_side_deformation (fun _ => (⟨0,0,0⟩ : Pt3)) (fun _ => ⟨0,0,0⟩)
        (create_vertex_mirror_mapping (fun _ => ⟨0,0,0⟩) (some 'R') [] [] [] 1).tgt
        (create_vertex_mirror_mapping (fun _ => ⟨0,0,0⟩) (some 'R') [] [] [] 1).rev ∧
    ambiguous_mirror_direction (fun _ => (⟨0,0,0⟩ : Pt3)) (fun _ => ⟨0,0,0⟩)
        [] [] [] 1 = 'R' :=
  ⟨Nat.le.refl,
    (claim_C4 (fun _ => ⟨0,0,0⟩) (fun _ => ⟨0,0,0⟩) [] [] [] 1).2.2.2 Nat.le.refl⟩

set_option maxRecDepth 8000 in
set_option maxHeartbeats 3200000 in
/-- Counterexample to claim C4 as stated: a symmetric two-vertex mesh
with a zero-displacement key gives equal counts in both directions, and
the chosen direction is `'R'` (right-to-left), not left-to-right. -/
theorem counterexample_C4 :
    (count_side_deformation (fun i => ⟨[-1, 1].getD i 0, 0, 0⟩)
        (fun i => ⟨[-1, 1].getD i 0, 0, 0⟩)
        (create_vertex_mirror_mapping (fun i => ⟨[-1, 1].getD i 0, 0, 0⟩)
          (some 'L') [0] [1] [] (1/1000)).tgt
        (create_vertex_mirror_mapping (fun i => ⟨[-1, 1].getD i 0, 0, 0⟩)
          (some 'L') [0] [1] [] (1/1000)).rev
      = count_side_deformation (fun i => ⟨[-1, 1].getD i 0, 0, 0⟩)
        (fun i => ⟨[-1, 1].getD i 0, 0, 0⟩)
        (create_vertex_mirror_mapping (fun i => ⟨[-1, 1].getD i 0, 0, 0⟩)
          (some 'R') [0] [1] [] (1/1000)).tgt
        (create_vertex_mirror_mapping (fun i => ⟨[-1, 1].getD i 0, 0, 0⟩)
          (some 'R') [0] [1] [] (1/1000)).rev) ∧
    ambiguous_mirror_direction (fun i => ⟨[-1, 1].getD i 0, 0, 0⟩)
        (fun i => ⟨[-1, 1].getD i 0, 0, 0⟩) [0] [1] [] (1/1000) = 'R' := by
  constructor <;>
  norm_num [(show ¬ (('R' : Char) = 'L') from by decide),
    ambiguous_mirror_direction, count_side_deformation,
    create_vertex_mirror_mapping, targetOctree, mirrorLookup,
    Octree.empty, Octree.insert, Octree.findNearest, OctreeNode.insertAux,
    OctreeNode.findNearest, OctreeNode.leafScan, dput, dget, sqDist,
    qiLt, qiLe, flipX, psub, sqNorm, abs_eq_max_neg, max_def, min_def,
    List.foldl_cons, List.foldl_nil,
    List.getD, List.filter_cons, List.any_cons]

/-- Claim C5: the correspondence seeds center vertices as identities,
omits source vertices whose octree query failed, binds matched source
vertices to their match, and the reverse map resolves each target to
the last source vertex (in processing order) that mapped to it,
excluding identity pairs. -/
theorem claim_C5 (co : ℕ → Pt3) (fromSide : Option Char)
    (leftV rightV centerV : List ℕ) (tol : ℚ)
    (hcnd : centerV.Nodup) (hlnd : leftV.Nodup) (hrnd : rightV.Nodup)
    (hlc : ∀ s ∈ leftV, s ∉ centerV) (hrc : ∀ s ∈ rightV, s ∉ centerV)
    (hlr : ∀ s ∈ leftV, s ∉ rightV) :
    (∀ i ∈ centerV,
      dget (create_vertex_mirror_mapping co fromSide leftV rightV centerV tol).fwd i
        = some i) ∧
    (∀ s ∈ (create_vertex_mirror_mapping co fromSide leftV rightV centerV tol).src,
      mirrorLookup co
          (targetOctree co (create_vertex_mirror_mapping co fromSide leftV rightV centerV tol).tgt)
          tol s = none →
      dget (create_vertex_mirror_mapping co fromSide leftV rightV centerV tol).fwd s
        = none) ∧
    (∀ s ∈ (create_vertex_mirror_mapping co fromSide leftV rightV centerV tol).src,
      ∀ ti,
      mirrorLookup co
          (targetOctree co (create_vertex_mirror_mapping co fromSide leftV rightV centerV tol).tgt)
          tol s = some ti →
      dget (create_vertex_mirror_mapping co fromSide leftV rightV centerV tol).fwd s
        = some ti) ∧
    (∀ t,
      dget (create_vertex_mirror_mapping co fromSide leftV rightV centerV tol).rev t
        = (create_vertex_mirror_mapping co fromSide leftV rightV centerV tol).src.reverse.find?
            (fun s2 => mirrorLookup co
              (targetOctree co (create_vertex_mirror_mapping co fromSide leftV rightV centerV tol).tgt)
              tol s2 == some t)) := by
  have hsrc : (create_vertex_mirror_mapping co fromSide leftV rightV centerV tol).src
      = if fromSide = some 'L' then leftV else rightV := rfl
  have htgt : (create_vertex_mirror_mapping co fromSide leftV rightV centerV tol).tgt
      = if fromSide = some 'L' then rightV else leftV := rfl
  have hsnd : (if fromSide = some 'L' then leftV else rightV).Nodup := by
    by_cases hfs : fromSide = some 'L'
    · rw [if_pos hfs]; exact hlnd
    · rw [if_neg hfs]; exact hrnd
  have hsc : ∀ s ∈ (if fromSide = some 'L' then leftV else rightV),
      s ∉ centerV := by
    by_cases hfs : fromSide = some 'L'
    · rw [if_pos hfs]; exact hlc
    · rw [if_neg hfs]; exact hrc
  have hst : ∀ s ∈ (if fromSide = some 'L' then leftV else rightV),
      s ∉ (if fromSide = some 'L' then rightV else leftV) := by
    by_cases hfs : fromSide = some 'L'
    · rw [if_pos hfs, if_pos hfs]; exact hlr
    · rw [if_neg hfs, if_neg hfs]
      intro s hs hsl
      exact hlr s hsl hs
  have hfwdeq : (create_vertex_mirror_mapping co fromSide leftV rightV centerV tol).fwd
      = centerV.map (fun i => (i, i))
        ++ (if fromSide = some 'L' then leftV else rightV).filterMap
            (fun si => (mirrorLookup co
              (targetOctree co (if fromSide = some 'L' then rightV else leftV))
              tol si).map (fun ti => (si, ti))) := by
    unfold create_vertex_mirror_mapping
    simp only []
    rw [fwd0_eq centerV []
      (fun i _ p hp => absurd hp (List.not_mem_nil _)) hcnd]
    rw [List.nil_append]
    rw [fwdFold_eq
      (mirrorLookup co
        (targetOctree co (if fromSide = some 'L' then rightV else leftV)) tol)
      (if fromSide = some 'L' then leftV else rightV)
      (centerV.map (fun i => (i, i))) ?_ hsnd]
    intro s hs p hp
    obtain ⟨j, hj, hje⟩ := List.mem_map.mp hp
    subst hje
    intro hc
    exact hsc s hs (hc ▸ hj)
  have hreveq : (create_vertex_mirror_mapping co fromSide leftV rightV centerV tol).rev
      = ((create_vertex_mirror_mapping co fromSide leftV rightV centerV tol).fwd).foldl
          (fun r p => if p.1 ≠ p.2 then dput r p.2 p.1 else r) [] := rfl
  have hne : ∀ s ∈ (if fromSide = some 'L' then leftV else rightV), ∀ t2,
      mirrorLookup co
        (targetOctree co (if fromSide = some 'L' then rightV else leftV))
        tol s = some t2 → s ≠ t2 := by
    intro s hs t2 hl2
    have hmem := mirrorLookup_mem_tgt co
      (if fromSide = some 'L' then rightV else leftV) tol s t2 hl2
    intro hc
    exact hst s hs (hc ▸ hmem)
  refine ⟨?_, ?_, ?_, ?_⟩
  · intro i hi
    rw [hfwdeq, dget_append]
    have h1 : dget (centerV.map (fun j => (j, j))) i = some i := by
      unfold dget
      rw [find?_center_map centerV i hi]
      rfl
    rw [h1]
    rfl
  · intro s hs hlook
    rw [hsrc] at hs
    rw [htgt] at hlook
    rw [hfwdeq, dget_append]
    have h1 : dget (centerV.map (fun j => (j, j))) s = none := by
      unfold dget
      rw [find?_center_map_none centerV s (hsc s hs)]
      rfl
    have h2 : dget ((if fromSide = some 'L' then leftV else rightV).filterMap
        (fun si => (mirrorLookup co
          (targetOctree co (if fromSide = some 'L' then rightV else leftV))
          tol si).map (fun ti => (si, ti)))) s = none := by
      unfold dget
      rw [find?_matched_none _ _ s hlook]
      rfl
    rw [h1, h2]
    rfl
  · intro s hs ti hlook
    rw [hsrc] at hs
    rw [htgt] at hlook
    rw [hfwdeq, dget_append]
    have h1 : dget (centerV.map (fun j => (j, j))) s = none := by
      unfold dget
      rw [find?_center_map_none centerV s (hsc s hs)]
      rfl
    have h2 : dget ((if fromSide = some 'L' then leftV else rightV).filterMap
        (fun si => (mirrorLookup co
          (targetOctree co (if fromSide = some 'L' then rightV else leftV))
          tol si).map (fun ti => (si, ti)))) s = some ti := by
      unfold dget
      rw [find?_matched_some _ _ s hs ti hlook]
      rfl
    rw [h1, h2]
    rfl
  · intro t
    rw [hreveq, hfwdeq]
    rw [revFold_eq]
    rw [dget_nil, Option.or_none]
    rw [List.reverse_append, List.find?_append]
    rw [find?_rev_identity centerV t, Option.or_none]
    rw [matchedRev_find
      (mirrorLookup co
        (targetOctree co (if fromSide = some 'L' then rightV else leftV)) tol)
      t (if fromSide = some 'L' then leftV else rightV) hne]
    rw [hsrc, htgt]

/-- Witness for claim C5 on a concrete classification. -/
theorem claim_C5_witness :
    ([2] : List ℕ).Nodup ∧ ([0] : List ℕ).Nodup ∧ ([1] : List ℕ).Nodup ∧
    (∀ s ∈ ([0] : List ℕ), s ∉ ([2] : List ℕ)) ∧
    (∀ s ∈ ([1] : List ℕ), s ∉ ([2] : List ℕ)) ∧
    (∀ s ∈ ([0] : List ℕ), s ∉ ([1] : List ℕ)) ∧
    ((∀ i ∈ ([2] : List ℕ),
      dget (create_vertex_mirror_mapping (fun _ => ⟨0,0,0⟩) (some 'L') [0] [1] [2] 1).fwd i
        = some i) ∧
    (∀ s ∈ (create_vertex_mirror_mapping (fun _ => (⟨0,0,0⟩ : Pt3)) (some 'L') [0] [1] [2] 1).src,
      mirrorLookup (fun _ => ⟨0,0,0⟩)
          (targetOctree (fun _ => ⟨0,0,0⟩) (create_vertex_mirror_mapping (fun _ => (⟨0,0,0⟩ : Pt3)) (some 'L') [0] [1] [2] 1).tgt)
          1 s = none →
      dget (create_vertex_mirror_mapping (fun _ => (⟨0,0,0⟩ : Pt3)) (some 'L') [0] [1] [2] 1).fwd s
        = none) ∧
    (∀ s ∈ (create_vertex_mirror_mapping (fun _ => (⟨0,0,0⟩ : Pt3)) (some 'L') [0] [1] [2] 1).src,
      ∀ ti,
      mirrorLookup (fun _ => ⟨0,0,0⟩)
          (targetOctree (fun _ => ⟨0,0,0⟩) (create_vertex_mirror_mapping (fun _ => (⟨0,0,0⟩ : Pt3)) (some 'L') [0] [1] [2] 1).tgt)
          1 s = some ti →
      dget (create_vertex_mirror_mapping (fun _ => (⟨0,0,0⟩ : Pt3)) (some 'L') [0] [1] [2] 1).fwd s
        = some ti) ∧
    (∀ t,
      dget (create_vertex_mirror_mapping (fun _ => (⟨0,0,0⟩ : Pt3)) (some 'L') [0] [1] [2] 1).rev t
        = (create_vertex_mirror_mapping (fun _ => (⟨0,0,0⟩ : Pt3)) (some 'L') [0] [1] [2] 1).src.reverse.find?
            (fun s2 => mirrorLookup (fun _ => ⟨0,0,0⟩)
              (targetOctree (fun _ => ⟨0,0,0⟩) (create_vertex_mirror_mapping (fun _ => (⟨0,0,0⟩ : Pt3)) (some 'L') [0] [1] [2] 1).tgt)
              1 s2 == some t))) :=
  ⟨by decide, by decide, by decide, by decide, by decide, by decide,
    claim_C5 (fun _ => ⟨0,0,0⟩) (some 'L') [0] [1] [2] 1
      (by decide) (by decide) (by decide) (by decide) (by decide) (by decide)⟩

/-- Claim C6: querying an octree built over a point set at a stored
point with an unbounded `max_dist` returns distance 0 and the label of
a stored point at the query coordinates, for all subdivision
parameters. -/
theorem claim_C6 (S : List Entry) (mp maxD : ℕ) (P : Pt3) (i0 : ℕ)
    (hmem : (P, i0) ∈ S) :
    ∃ i, (Octree.build mp maxD S).findNearest P .inf = (.fin 0, some i) ∧
      (P, i) ∈ S := by
  obtain ⟨hwf, hst⟩ := Octree.build_wf mp maxD S
  rcases hoo : Octree.build mp maxD S with ⟨orr⟩
  cases orr with
  | none =>
    rw [hoo] at hst
    simp only [Octree.storedO] at hst
    have hp := Multiset.coe_eq_coe.mp hst
    have hS : S = [] := hp.symm.eq_nil
    rw [hS] at hmem
    exact absurd hmem (List.not_mem_nil _)
  | some r =>
    rw [hoo] at hwf hst
    have hinv := hwf r rfl
    have hmem2 : (P, i0) ∈ r.stored := by
      have hiff := storedO_mem_iff hst (P, i0)
      simp only [Octree.storedO] at hiff
      exact hiff.mpr hmem
    obtain ⟨i, hfi, hmi⟩ :=
      OctreeNode.findNearest_exact mp maxD r 0 hinv P i0 hmem2
    refine ⟨i, ?_, ?_⟩
    · simp only [Octree.findNearest]
      exact hfi
    · have hiff := storedO_mem_iff hst (P, i)
      simp only [Octree.storedO] at hiff
      exact hiff.mp hmi

/-- Witness for claim C6 at a one-point set. -/
theorem claim_C6_witness :
    ((⟨0,0,0⟩ : Pt3), 5) ∈ ([((⟨0,0,0⟩ : Pt3), 5)] : List Entry) ∧
    ∃ i, (Octree.build 3 2 [((⟨0,0,0⟩ : Pt3), 5)]).findNearest ⟨0,0,0⟩ .inf
        = (.fin 0, some i) ∧
      ((⟨0,0,0⟩ : Pt3), i) ∈ ([((⟨0,0,0⟩ : Pt3), 5)] : List Entry) :=
  ⟨by simp, claim_C6 [((⟨0,0,0⟩ : Pt3), 5)] 3 2 ⟨0,0,0⟩ 5 (by simp)⟩

/-- Claim C7 (amended): for labels that contain neither the word "Left"
nor "Right", a detected side token is substituted by its opposite with
the detected separator preserved; when the word does occur in the label,
the substitution uses the word instead (see the counterexample); and
`generate_mirrored_name "SmileL"` with existing `{"SmileR"}` returns
`"SmileR_Mirror"` via the collision path. -/
theorem claim_C7 :
    (∀ (name b : List Char) (c : Char),
      (detect_shape_key_side name).baseName = some b →
      (detect_shape_key_side name).toSide = some c →
      containsSeq name ['L','e','f','t'] = false →
      containsSeq name ['R','i','g','h','t'] = false →
      generate_mirrored_name name (detect_shape_key_side name) [] =
        b ++ (detect_shape_key_side name).sep.getD [] ++ [c]) ∧
    generate_mirrored_name ['S','m','i','l','e','L']
        (detect_shape_key_side ['S','m','i','l','e','L'])
        [['S','m','i','l','e','R']] =
      ['S','m','i','l','e','R','_','M','i','r','r','o','r'] := by
  constructor
  · intro name b c hb hc hL hR
    unfold generate_mirrored_name
    simp only [hb, hc, hL, hR, Bool.and_false, Bool.false_eq_true, if_false]
    by_cases hsep : ((detect_shape_key_side name).sep.getD []).isEmpty
    · have hnil : (detect_shape_key_side name).sep.getD [] = [] := by
        simpa [List.isEmpty_iff] using hsep
      rw [hnil]
      simp [hsep]
    · have hsep' : (!((detect_shape_key_side name).sep.getD []).isEmpty) = true := by
        simp [hsep]
      simp [hsep']
  · decide

/-- Witness for claim C7's general part on the label "SmileL". -/
theorem claim_C7_witness :
    generate_mirrored_name ['S','m','i','l','e','L']
        (detect_shape_key_side ['S','m','i','l','e','L']) [] =
      ['S','m','i','l','e']
        ++ (detect_shape_key_side ['S','m','i','l','e','L']).sep.getD []
        ++ ['R'] :=
  claim_C7.1 ['S','m','i','l','e','L'] ['S','m','i','l','e'] 'R'
    (by decide) (by decide) (by decide) (by decide)

/-- Counterexample to claim C7 as stated: "LeftL" is detected as base
"Left" with the bare suffix "L" and empty separator, but the generated
name is "LeftRight" — the word "Left" embedded in the label triggers the
word substitution — not base + "R" = "LeftR". -/
theorem counterexample_C7 :
    detect_shape_key_side ['L','e','f','t','L'] =
      ⟨some ['L','e','f','t'], some 'L', some 'R', some []⟩ ∧
    generate_mirrored_name ['L','e','f','t','L']
        (detect_shape_key_side ['L','e','f','t','L']) [] =
      ['L','e','f','t','R','i','g','h','t'] ∧
    (['L','e','f','t','R','i','g','h','t'] : List Char)
      ≠ ['L','e','f','t'] ++ ['R'] := by
  refine ⟨by decide, by decide, by decide⟩

/-- Claim C8: side classification puts every vertex index below `n`
into exactly one of the left, right, center groups; the group sizes sum
to `n`; a vertex is center iff `|x| < 1/10000`, else left iff `x < 0`,
else right. -/
theorem claim_C8 (co : ℕ → Pt3) (n : ℕ) :
    ((build_mirror_vertex_mapping co n).1.length
      + (build_mirror_vertex_mapping co n).2.1.length
      + (build_mirror_vertex_mapping co n).2.2.length = n) ∧
    ∀ i, i < n →
      ((i ∈ (build_mirror_vertex_mapping co n).2.2 ↔ |(co i).x| < 1 / 10000) ∧
       (i ∈ (build_mirror_vertex_mapping co n).1 ↔
         ¬ |(co i).x| < 1 / 10000 ∧ (co i).x < 0) ∧
       (i ∈ (build_mirror_vertex_mapping co n).2.1 ↔
         ¬ |(co i).x| < 1 / 10000 ∧ ¬ (co i).x < 0)) ∧
      ((i ∈ (build_mirror_vertex_mapping co n).1
          ∧ i ∉ (build_mirror_vertex_mapping co n).2.1
          ∧ i ∉ (build_mirror_vertex_mapping co n).2.2)
        ∨ (i ∉ (build_mirror_vertex_mapping co n).1
          ∧ i ∈ (build_mirror_vertex_mapping co n).2.1
          ∧ i ∉ (build_mirror_vertex_mapping co n).2.2)
        ∨ (i ∉ (build_mirror_vertex_mapping co n).1
          ∧ i ∉ (build_mirror_vertex_mapping co n).2.1
          ∧ i ∈ (build_mirror_vertex_mapping co n).2.2)) := by
  have he : build_mirror_vertex_mapping co n =
      ((List.range n).filter (fun i => !decide (|(co i).x| < 1 / 10000)
          && decide ((co i).x < 0)),
       (List.range n).filter (fun i => !decide (|(co i).x| < 1 / 10000)
          && !decide ((co i).x < 0)),
       (List.range n).filter (fun i => decide (|(co i).x| < 1 / 10000))) := by
    unfold build_mirror_vertex_mapping
    simpa using bmvm_fold co (List.range n) [] [] []
  constructor
  · rw [he]
    have h3 := filter3_len (fun i => decide (|(co i).x| < 1 / 10000))
      (fun i => decide ((co i).x < 0)) (List.range n)
    simpa using h3
  · intro i hi
    rw [he]
    constructor
    · refine ⟨?_, ?_, ?_⟩
      · simp [List.mem_filter, List.mem_range, hi]
      · simp [List.mem_filter, List.mem_range, hi]
      · simp [List.mem_filter, List.mem_range, hi]
    · by_cases hc1 : |(co i).x| < 1 / 10000
      · have hc1' : |(co i).x| < (10000 : ℚ)⁻¹ := by rwa [one_div] at hc1
        right; right
        refine ⟨?_, ?_, ?_⟩
        · simp [List.mem_filter, hc1']
        · simp [List.mem_filter, hc1']
        · simp [List.mem_filter, List.mem_range, hi, hc1']
      · have hc1' : ¬ |(co i).x| < (10000 : ℚ)⁻¹ := by
          rw [one_div] at hc1
          exact hc1
        by_cases hc2 : (co i).x < 0
        · left
          refine ⟨?_, ?_, ?_⟩
          · simp [List.mem_filter, List.mem_range, hi, hc1', hc2]
          · simp [List.mem_filter, hc1', hc2]
          · simp [List.mem_filter, hc1']
        · right; left
          refine ⟨?_, ?_, ?_⟩
          · simp [List.mem_filter, hc1', hc2]
          · simp [List.mem_filter, List.mem_range, hi, hc1', hc2]
          · simp [List.mem_filter, hc1']

/-- Witness for claim C8 at a one-vertex mesh. -/
theorem claim_C8_witness :
    (build_mirror_vertex_mapping (fun _ => (⟨1,0,0⟩ : Pt3)) 1).1.length
      + (build_mirror_vertex_mapping (fun _ => (⟨1,0,0⟩ : Pt3)) 1).2.1.length
      + (build_mirror_vertex_mapping (fun _ => (⟨1,0,0⟩ : Pt3)) 1).2.2.length = 1 :=
  (claim_C8 (fun _ => ⟨1,0,0⟩) 1).1

/-- Claim C9: after any sequence of wrapper insertions, every node sits
at depth at most `max_depth`, every leaf strictly above `max_depth`
holds at most `max_points` entries; and an overflowing leaf with depth
budget left subdivides into an interior node (eight children by
construction) centered where the leaf was, redistributing exactly its
points plus the new entry. -/
theorem claim_C9 (mp maxD : ℕ) (es : List Entry) :
    (∀ r, (es.foldl (fun o e => o.insert mp maxD e) Octree.empty).root = some r →
        OctreeNode.depthBound maxD 0 r ∧ OctreeNode.leafCapOk mp maxD 0 r) ∧
    (∀ (c : Pt3) (s : ℚ) (pts : List Entry) (e : Entry) (d : ℕ),
      d < maxD → mp < (pts ++ [e]).length →
      (OctreeNode.insertAux mp (maxD - d) (.leaf c s pts) e).isNode ∧
      (OctreeNode.insertAux mp (maxD - d) (.leaf c s pts) e).center = c ∧
      ((OctreeNode.insertAux mp (maxD - d) (.leaf c s pts) e).stored : Multiset Entry)
        = ↑(pts ++ [e])) := by
  constructor
  · intro r hr
    have hwf := (Octree.insertMany_wf mp maxD es Octree.empty
      (Octree.WF_empty mp maxD)).1
    have hinv := hwf r hr
    exact ⟨OctreeNode.depthBound_of_InvAt mp maxD r 0 (Nat.zero_le _) hinv,
      OctreeNode.leafCapOk_of_InvAt mp maxD r 0 hinv⟩
  · intro c s pts e d hd hlen
    exact OctreeNode.insert_overflow_subdivides mp maxD c s pts e d hd hlen

/-- Witness for claim C9's subdivision clause at a concrete overflow. -/
theorem claim_C9_witness :
    (0 : ℕ) < 1 ∧ (0 : ℕ) < (([] : List Entry) ++ [((⟨0,0,0⟩ : Pt3), 0)]).length ∧
    ((OctreeNode.insertAux 0 (1 - 0) (.leaf ⟨0,0,0⟩ 1 []) ((⟨0,0,0⟩ : Pt3), 0)).isNode ∧
    (OctreeNode.insertAux 0 (1 - 0) (.leaf ⟨0,0,0⟩ 1 []) ((⟨0,0,0⟩ : Pt3), 0)).center
      = ⟨0,0,0⟩ ∧
    ((OctreeNode.insertAux 0 (1 - 0) (.leaf ⟨0,0,0⟩ 1 []) ((⟨0,0,0⟩ : Pt3), 0)).stored
        : Multiset Entry)
      = Multiset.ofList (([] : List Entry) ++ [((⟨0,0,0⟩ : Pt3), 0)])) :=
  ⟨by decide, by decide,
    (claim_C9 0 1 []).2 ⟨0,0,0⟩ 1 [] (⟨0,0,0⟩, 0) 0 (by decide) (by decide)⟩

/-- Claim C10: when no side pattern matches the key's label, the
single-key mirror still finishes (with the warning flag), and the
correspondence is built with the undetected side value, making the
right-side classifier group the source and the left-side group the
target — the effective default direction is right-to-left. -/
theorem claim_C10 (basis keyCo : ℕ → Pt3) (n : ℕ) (keyName : List Char)
    (existing : List (List Char)) (tol : ℚ)
    (h : (detect_shape_key_side keyName).baseName = none) :
    ∃ res, shapekey_mirror_execute basis keyCo n keyName existing tol true
        = some res ∧
      res.status = .finished ∧
      res.warned = true ∧
      res.mapping.src = (build_mirror_vertex_mapping basis n).2.1 ∧
      res.mapping.tgt = (build_mirror_vertex_mapping basis n).1 := by
  have hall := detect_none keyName h
  refine ⟨_, rfl, rfl, ?_, ?_, ?_⟩
  · simp [h]
  · simp only [hall]
    rfl
  · simp only [hall]
    rfl

/-- Witness for claim C10 on an unclassifiable label. -/
theorem claim_C10_witness :
    (detect_shape_key_side ['+']).baseName = none ∧
    ∃ res, shapekey_mirror_execute (fun _ => (⟨0,0,0⟩ : Pt3))
        (fun _ => ⟨0,0,0⟩) 0 ['+'] [] 1 true = some res ∧
      res.status = .finished ∧
      res.warned = true ∧
      res.mapping.src
        = (build_mirror_vertex_mapping (fun _ => (⟨0,0,0⟩ : Pt3)) 0).2.1 ∧
      res.mapping.tgt
        = (build_mirror_vertex_mapping (fun _ => (⟨0,0,0⟩ : Pt3)) 0).1 :=
  ⟨by decide, claim_C10 (fun _ => ⟨0,0,0⟩) (fun _ => ⟨0,0,0⟩) 0 ['+'] [] 1
    (by decide)⟩

end BasicsSKM
